import Mathlib

/-!
# Verification development for `secure-cell-vault`

A shallow embedding of the cryptographic envelope, key-lifecycle and
versioned-secret subsystem of the `secure-cell-vault` repository
(`src/secure_cell_vault/core/security.py`,
`src/secure_cell_vault/api/v1/endpoints/secrets.py`,
`src/secure_cell_vault/api/v1/endpoints/cells.py`,
`src/secure_cell_vault/core/models.py`,
`src/migrations/versions/20250322_initial.py`).

Modelling conventions:

* Byte strings are `List Nat`; a genuine byte is `< 256`.
* The external `cryptography` library's AES-256-GCM (`AESGCM`) is modelled as
  an idealized AEAD: the ciphertext body is the plaintext XOR-ed with a
  keystream determined by (key, nonce), and the 16-entry authentication tag is
  an idealized unforgeable MAC — its first entry injectively encodes
  (key, nonce, body).  This is the standard symbolic idealization of the
  library's contract (decryption succeeds exactly on untampered ciphertexts
  produced under the same key).  Per the library's documented behaviour,
  `AESGCM.decrypt` raises `ValueError` when the nonce is outside 8..128 bytes
  and `InvalidTag` when the data is shorter than the 16-byte tag or the tag
  does not verify.
* PBKDF2-HMAC-SHA256 subkey derivation (`CellEncryption._init_encryption`)
  is modelled as an idealized deterministic, collision-free KDF: an injective
  pairing of the input key material and the salt (the UTF-8 cell id).
* The base64 transport (`b64encode`/`b64decode` around the binary triple
  `nonce || body || tag`) is a bijection the claims never inspect; the model
  works directly with the binary triple (the "decoded binary form").
* Randomness (`os.urandom`) is passed in as explicit parameters (nonces and
  fresh data keys).
* Python `AttributeError` (attribute access on `None`, or `.hex()` on an
  `int`) is modelled as the error value `VErr.attributeError`.
-/

/-- Base for the injective list encoding: `2 ^ 21`, strictly larger than every
byte value and every Unicode scalar value, so byte lists and code-point lists
are always in the injective range. -/
def encB : Nat := 2097152

/-- Injective encoding of bounded lists of naturals into `Nat` (digits
`b + 1` in base `encB + 1`).  Used to build the idealized KDF and MAC. -/
def encodeList : List Nat → Nat
  | [] => 0
  | b :: bs => encodeList bs * (encB + 1) + (b + 1)

/-- `encodeList` is injective on lists whose entries are below `encB`. -/
theorem encodeList_inj : ∀ {l₁ l₂ : List Nat}, (∀ b ∈ l₁, b < encB) →
    (∀ b ∈ l₂, b < encB) → encodeList l₁ = encodeList l₂ → l₁ = l₂
  | [], [], _, _, _ => rfl
  | [], b :: bs, _, h₂, h => by
    exfalso
    have : 0 = encodeList bs * (encB + 1) + (b + 1) := h
    omega
  | b :: bs, [], h₁, _, h => by
    exfalso
    have : encodeList bs * (encB + 1) + (b + 1) = 0 := h
    omega
  | b₁ :: bs₁, b₂ :: bs₂, h₁, h₂, h => by
    have hb₁ : b₁ < encB := h₁ b₁ (List.mem_cons_self _ _)
    have hb₂ : b₂ < encB := h₂ b₂ (List.mem_cons_self _ _)
    have h' : encodeList bs₁ * (encB + 1) + (b₁ + 1)
        = encodeList bs₂ * (encB + 1) + (b₂ + 1) := h
    simp only [encB] at h' hb₁ hb₂
    have hb : b₁ = b₂ ∧ encodeList bs₁ = encodeList bs₂ := by
      constructor <;> omega
    have htail : bs₁ = bs₂ :=
      encodeList_inj (fun b hb => h₁ b (List.mem_cons_of_mem _ hb))
        (fun b hb => h₂ b (List.mem_cons_of_mem _ hb)) hb.2
    rw [hb.1, htail]

/-- The code points of a string, as a `List Nat` (`cell_id.encode()` in the
source; code points rather than UTF-8 bytes, an injective change of
representation). -/
def strBytes (s : String) : List Nat := s.data.map Char.toNat

theorem char_toNat_inj {a b : Char} (h : a.toNat = b.toNat) : a = b :=
  Char.eq_of_val_eq (UInt32.ext h)

theorem char_toNat_lt (c : Char) : c.toNat < encB := by
  have h := c.valid
  simp only [UInt32.isValidChar, Nat.isValidChar] at h
  simp only [Char.toNat, encB]
  omega

theorem strBytes_lt (s : String) : ∀ b ∈ strBytes s, b < encB := by
  intro b hb
  simp only [strBytes, List.mem_map] at hb
  obtain ⟨c, _, hc⟩ := hb
  subst hc
  exact char_toNat_lt c

theorem strBytes_inj {s₁ s₂ : String} (h : strBytes s₁ = strBytes s₂) :
    s₁ = s₂ := by
  have hdata : s₁.data = s₂.data := by
    have := List.map_injective_iff.mpr (fun a b hab => char_toNat_inj hab) h
    exact this
  cases s₁; cases s₂; simp_all

/-- Hex digit character code for a nibble (`'0'..'9'`, `'a'..'f'`),
as produced by Python's `bytes.hex()`. -/
def hexDigit (n : Nat) : Nat := if n < 10 then 48 + n else 87 + n

/-- Lowercase hex encoding of a byte string (`key_bytes.hex()` /
`os.urandom(32).hex()` in the source). -/
def hexEncode (bs : List Nat) : List Nat :=
  bs.flatMap fun b => [hexDigit (b / 16), hexDigit (b % 16)]

/-- Value of one hex digit character, `none` on a non-digit
(Python `bytes.fromhex` raises `ValueError` there). -/
def hexDigitVal (c : Nat) : Option Nat :=
  if 48 ≤ c ∧ c ≤ 57 then some (c - 48)
  else if 97 ≤ c ∧ c ≤ 102 then some (c - 87)
  else none

/-- Hex decoding (`bytes.fromhex` in the source); `none` on odd length or a
non-digit character. -/
def hexDecode : List Nat → Option (List Nat)
  | [] => some []
  | [_] => none
  | c₁ :: c₂ :: cs => do
    let h ← hexDigitVal c₁
    let l ← hexDigitVal c₂
    let rest ← hexDecode cs
    some ((h * 16 + l) :: rest)

theorem hexDigitVal_hexDigit {n : Nat} (h : n < 16) :
    hexDigitVal (hexDigit n) = some n := by
  unfold hexDigit hexDigitVal
  by_cases h10 : n < 10
  · rw [if_pos h10, if_pos (by omega)]
    simp
  · rw [if_neg h10, if_neg (by omega), if_pos (by omega)]
    simp

theorem hexEncode_cons (b : Nat) (bs : List Nat) :
    hexEncode (b :: bs) = hexDigit (b / 16) :: hexDigit (b % 16) :: hexEncode bs := by
  simp [hexEncode]

/-- `bytes.fromhex` inverts `.hex()` on genuine byte strings. -/
theorem hexDecode_hexEncode : ∀ {bs : List Nat}, (∀ b ∈ bs, b < 256) →
    hexDecode (hexEncode bs) = some bs
  | [], _ => rfl
  | b :: bs, h => by
    have hb : b < 256 := h b (List.mem_cons_self _ _)
    have htail := hexDecode_hexEncode (fun x hx => h x (List.mem_cons_of_mem _ hx))
    rw [hexEncode_cons]
    show hexDecode (hexDigit (b / 16) :: hexDigit (b % 16) :: hexEncode bs)
      = some (b :: bs)
    unfold hexDecode
    rw [hexDigitVal_hexDigit (by omega : b / 16 < 16),
      hexDigitVal_hexDigit (by omega : b % 16 < 16), htail]
    simp only [Option.bind_eq_bind, Option.some_bind]
    congr 2
    omega

/-- Every entry of a hex encoding of a byte string is a (printable) byte. -/
theorem hexEncode_lt {bs : List Nat} (hbs : ∀ b ∈ bs, b < 256) :
    ∀ c ∈ hexEncode bs, c < 256 := by
  intro c hc
  simp only [hexEncode, List.mem_flatMap] at hc
  obtain ⟨b, hbmem, hb⟩ := hc
  have : b < 256 := hbs b hbmem
  simp only [List.mem_cons, List.not_mem_nil, or_false] at hb
  rcases hb with h | h <;> · subst h; unfold hexDigit; split <;> omega

/-! ## Error kinds

The outcomes an endpoint can signal: `HTTPException` status codes raised in
the source (404 → `notFound`, 403 → `forbidden`, 400 duplicate → 
`alreadyExists`, 500 "No active encryption key found" → `noActiveKey`), the
persistence layer's unique-constraint violation (`conflict`), and uncaught
exceptions (`attributeError` from Python attribute access, `invalidTag` from
the AEAD — the spec's `CryptoError::Decrypt` — and `valueError` from
`bytes.fromhex` or the AEAD's nonce-length validation). -/

inductive VErr where
  | notFound
  | forbidden
  | alreadyExists
  | noActiveKey
  | conflict
  | attributeError
  | invalidTag
  | valueError
  deriving DecidableEq, Repr

deriving instance DecidableEq for Except

/-! ## Idealized AES-256-GCM and PBKDF2 -/

/-- Idealized PBKDF2-HMAC-SHA256 (`CellEncryption._init_encryption`):
a deterministic, collision-free derivation of a subkey from key material and
salt, modelled as an injective pairing. -/
def deriveKey (keyMaterial : List Nat) (salt : List Nat) : Nat :=
  Nat.pair (encodeList keyMaterial) (encodeList salt)

/-- Byte `i` of the idealized AES-CTR keystream for (key, nonce). -/
def ksByte (k : Nat) (nonce : List Nat) (i : Nat) : Nat :=
  Nat.pair k (Nat.pair (encodeList nonce) i) % 256

/-- XOR a byte string against the keystream, starting at position `i`
(the idealized CTR layer of AES-GCM; an involution). -/
def xorKs (k : Nat) (nonce : List Nat) : Nat → List Nat → List Nat
  | _, [] => []
  | i, b :: bs => (b ^^^ ksByte k nonce i) :: xorKs k nonce (i + 1) bs

/-- Idealized 16-byte GCM authentication tag: an unforgeable MAC over
(key, nonce, ciphertext body), modelled with an injective first entry. -/
def gcmTag (k : Nat) (nonce body : List Nat) : List Nat :=
  Nat.pair k (Nat.pair (encodeList nonce) (encodeList body)) :: List.replicate 15 0

/-- `AESGCM(key).encrypt(nonce, pt, None)`: ciphertext body followed by the
16-byte tag. -/
def aesgcmEncrypt (k : Nat) (nonce pt : List Nat) : List Nat :=
  xorKs k nonce 0 pt ++ gcmTag k nonce (xorKs k nonce 0 pt)

/-- `AESGCM(key).decrypt(nonce, data, None)` per the `cryptography` library's
contract: `ValueError` when the nonce is outside 8..128 bytes, `InvalidTag`
when the data is shorter than the 16-byte tag or the tag fails verification,
otherwise the recovered plaintext. -/
def aesgcmDecrypt (k : Nat) (nonce data : List Nat) : Except VErr (List Nat) :=
  if nonce.length < 8 ∨ 128 < nonce.length then .error .valueError
  else if data.length < 16 then .error .invalidTag
  else
    let body := data.take (data.length - 16)
    let tg := data.drop (data.length - 16)
    if tg = gcmTag k nonce body then .ok (xorKs k nonce 0 body)
    else .error .invalidTag

/-- `CellEncryption` (`core/security.py`): per-cell AEAD context, keyed by
input key material and the cell id. -/
structure CellEncryption where
  cell_id : String
  master_key : List Nat
  deriving DecidableEq, Repr

/-- The derived per-cell subkey (`self.cell_key = kdf.derive(self.master_key)`
with salt `self.cell_id.encode()`). -/
def CellEncryption.cell_key (e : CellEncryption) : Nat :=
  deriveKey e.master_key (strBytes e.cell_id)

/-- `CellEncryption.encrypt`: the binary triple `nonce || body || tag`
(the source base64-encodes this triple; the bijective base64 transport is
elided, see the header).  The 12-byte nonce `os.urandom(12)` is an explicit
parameter. -/
def CellEncryption.encrypt (e : CellEncryption) (nonce data : List Nat) :
    List Nat :=
  nonce ++ aesgcmEncrypt e.cell_key nonce data

/-- `CellEncryption.decrypt`: split the first 12 bytes off as the nonce and
hand the rest to the AEAD (`decoded[:12]` / `decoded[12:]`). -/
def CellEncryption.decrypt (e : CellEncryption) (encrypted_data : List Nat) :
    Except VErr (List Nat) :=
  aesgcmDecrypt e.cell_key (encrypted_data.take 12) (encrypted_data.drop 12)

theorem xorKs_length (k : Nat) (nonce : List Nat) :
    ∀ (i : Nat) (bs : List Nat), (xorKs k nonce i bs).length = bs.length := by
  intro i bs
  induction bs generalizing i with
  | nil => rfl
  | cons b bs ih => simp [xorKs, ih]

theorem xorKs_xorKs (k : Nat) (nonce : List Nat) :
    ∀ (i : Nat) (bs : List Nat), xorKs k nonce i (xorKs k nonce i bs) = bs := by
  intro i bs
  induction bs generalizing i with
  | nil => rfl
  | cons b bs ih => simp [xorKs, ih, Nat.xor_cancel_right]

theorem xor_byte_lt {a b : Nat} (ha : a < 256) (hb : b < 256) :
    a ^^^ b < 256 := by
  have h8 : (256 : Nat) = 2 ^ 8 := by norm_num
  rw [h8] at ha hb ⊢
  exact Nat.bitwise_lt ha hb

theorem xorKs_lt (k : Nat) (nonce : List Nat) :
    ∀ (i : Nat) (bs : List Nat), (∀ b ∈ bs, b < 256) →
      ∀ b ∈ xorKs k nonce i bs, b < 256 := by
  intro i bs
  induction bs generalizing i with
  | nil => intro _ b hb; cases hb
  | cons x xs ih =>
    intro h b hb
    rcases hb with _ | ⟨_, hb⟩
    · exact xor_byte_lt (h x (List.mem_cons_self _ _)) (Nat.mod_lt _ (by norm_num))
    · exact ih (i + 1) (fun y hy => h y (List.mem_cons_of_mem _ hy)) b hb

theorem gcmTag_length (k : Nat) (nonce body : List Nat) :
    (gcmTag k nonce body).length = 16 := by
  simp [gcmTag]

theorem take_len_append (l₁ l₂ : List α) : (l₁ ++ l₂).take l₁.length = l₁ := by
  induction l₁ with
  | nil => rfl
  | cons a l ih => simp [ih]

theorem drop_len_append (l₁ l₂ : List α) : (l₁ ++ l₂).drop l₁.length = l₂ := by
  induction l₁ with
  | nil => rfl
  | cons a l ih => simp [ih]

/-- AEAD roundtrip at the binary layer. -/
theorem aesgcmDecrypt_encrypt (k : Nat) (nonce pt : List Nat)
    (hn : 8 ≤ nonce.length) (hn' : nonce.length ≤ 128) :
    aesgcmDecrypt k nonce (aesgcmEncrypt k nonce pt) = .ok pt := by
  unfold aesgcmEncrypt aesgcmDecrypt
  rw [if_neg (by omega)]
  have hlen : (xorKs k nonce 0 pt ++ gcmTag k nonce (xorKs k nonce 0 pt)).length
      = (xorKs k nonce 0 pt).length + 16 := by
    simp [gcmTag_length]
  rw [if_neg (by omega)]
  rw [hlen]
  have hsub : (xorKs k nonce 0 pt).length + 16 - 16 = (xorKs k nonce 0 pt).length := by
    omega
  rw [hsub, take_len_append, drop_len_append, if_pos rfl, xorKs_xorKs]

/-! ## Tag mismatch lemmas (idealized unforgeability) -/

theorem gcmTag_ne_of_key_ne {k k' : Nat} (h : k ≠ k') (n n' b b' : List Nat) :
    gcmTag k n b ≠ gcmTag k' n' b' := by
  intro heq
  have hhead : Nat.pair k (Nat.pair (encodeList n) (encodeList b))
      = Nat.pair k' (Nat.pair (encodeList n') (encodeList b')) :=
    (List.cons.injEq _ _ _ _ ▸ heq : _ ∧ _).1
  exact h (Nat.pair_eq_pair.mp hhead).1

theorem gcmTag_ne_of_nonce_ne {n n' : List Nat} (hn : ∀ x ∈ n, x < encB)
    (hn' : ∀ x ∈ n', x < encB) (h : n ≠ n') (k : Nat) (b b' : List Nat) :
    gcmTag k n b ≠ gcmTag k n' b' := by
  intro heq
  have hhead : Nat.pair k (Nat.pair (encodeList n) (encodeList b))
      = Nat.pair k (Nat.pair (encodeList n') (encodeList b')) :=
    (List.cons.injEq _ _ _ _ ▸ heq : _ ∧ _).1
  have h2 := (Nat.pair_eq_pair.mp hhead).2
  exact h (encodeList_inj hn hn' (Nat.pair_eq_pair.mp h2).1)

theorem gcmTag_ne_of_body_ne {b b' : List Nat} (hb : ∀ x ∈ b, x < encB)
    (hb' : ∀ x ∈ b', x < encB) (h : b ≠ b') (k : Nat) (n : List Nat) :
    gcmTag k n b ≠ gcmTag k n b' := by
  intro heq
  have hhead : Nat.pair k (Nat.pair (encodeList n) (encodeList b))
      = Nat.pair k (Nat.pair (encodeList n) (encodeList b')) :=
    (List.cons.injEq _ _ _ _ ▸ heq : _ ∧ _).1
  have h2 := (Nat.pair_eq_pair.mp hhead).2
  exact h (encodeList_inj hb hb' (Nat.pair_eq_pair.mp h2).2)

theorem deriveKey_ne_of_salt_ne {s s' : List Nat} (hs : ∀ x ∈ s, x < encB)
    (hs' : ∀ x ∈ s', x < encB) (h : s ≠ s') (m m' : List Nat) :
    deriveKey m s ≠ deriveKey m' s' := by
  intro heq
  exact h (encodeList_inj hs hs' (Nat.pair_eq_pair.mp heq).2)

theorem deriveKey_ne_of_key_ne {m m' : List Nat} (hm : ∀ x ∈ m, x < encB)
    (hm' : ∀ x ∈ m', x < encB) (h : m ≠ m') (s s' : List Nat) :
    deriveKey m s ≠ deriveKey m' s' := by
  intro heq
  exact h (encodeList_inj hm hm' (Nat.pair_eq_pair.mp heq).1)

/-- Decryption of an explicitly split binary triple. -/
theorem aesgcmDecrypt_append (k : Nat) (nonce body tg : List Nat)
    (hn8 : 8 ≤ nonce.length) (hn128 : nonce.length ≤ 128)
    (htg : tg.length = 16) :
    aesgcmDecrypt k nonce (body ++ tg) =
      if tg = gcmTag k nonce body then .ok (xorKs k nonce 0 body)
      else .error .invalidTag := by
  unfold aesgcmDecrypt
  rw [if_neg (by omega)]
  have hlen : (body ++ tg).length = body.length + 16 := by simp [htg]
  rw [if_neg (by omega), hlen]
  have hsub : body.length + 16 - 16 = body.length := by omega
  rw [hsub, take_len_append, drop_len_append]

/-! ## List surgery -/

theorem set_append_of_lt {α : Type} {l₁ l₂ : List α} {i : Nat}
    (h : i < l₁.length) (x : α) : (l₁ ++ l₂).set i x = l₁.set i x ++ l₂ := by
  induction l₁ generalizing i with
  | nil => cases h
  | cons a l ih =>
    cases i with
    | zero => rfl
    | succ j => simp [List.set, ih (by simpa using h)]

theorem set_append_of_ge {α : Type} {l₁ l₂ : List α} {i : Nat}
    (h : l₁.length ≤ i) (x : α) :
    (l₁ ++ l₂).set i x = l₁ ++ l₂.set (i - l₁.length) x := by
  induction l₁ generalizing i with
  | nil => rfl
  | cons a l ih =>
    cases i with
    | zero => cases h
    | succ j =>
      have hj : l.length ≤ j := by simpa using h
      have harith : j + 1 - (a :: l).length = j - l.length := by
        simp only [List.length_cons]
        omega
      show a :: (l ++ l₂).set j x = a :: (l ++ l₂.set (j + 1 - (a :: l).length) x)
      rw [harith, ih hj]

theorem set_ne_self {α : Type} : ∀ (l : List α) (i : Nat) (h : i < l.length)
    (x : α), x ≠ l[i] → l.set i x ≠ l := by
  intro l
  induction l with
  | nil => intro i h; cases h
  | cons a t ih =>
    intro i h x hx heq
    cases i with
    | zero =>
      simp only [List.set] at heq
      exact hx (List.cons.injEq _ _ _ _ ▸ heq : _ ∧ _).1
    | succ j =>
      simp only [List.set] at heq
      have htail := (List.cons.injEq _ _ _ _ ▸ heq : _ ∧ _).2
      exact ih j (by simpa using h) x (by simpa using hx) htail

theorem xor_ne_self {a δ : Nat} (hδ : 0 < δ) : a ^^^ δ ≠ a := by
  intro heq
  have : δ = a ^^^ (a ^^^ δ) := (Nat.xor_cancel_left a δ).symm
  rw [heq, Nat.xor_self] at this
  omega

theorem lt_encB_of_lt_256 {b : Nat} (h : b < 256) : b < encB := by
  simp only [encB]
  omega

theorem all_lt_encB_of_lt_256 {l : List Nat} (h : ∀ b ∈ l, b < 256) :
    ∀ b ∈ l, b < encB :=
  fun b hb => lt_encB_of_lt_256 (h b hb)

theorem set_all_lt {l : List Nat} {i y : Nat} (h : ∀ b ∈ l, b < 256)
    (hy : y < 256) : ∀ b ∈ l.set i y, b < 256 := by
  intro b hb
  rcases List.mem_or_eq_of_mem_set hb with h' | h'
  · exact h b h'
  · omega

/-- Round trip of the cell cipher: decrypting what was just encrypted under
the same instance recovers the plaintext. -/
theorem CellEncryption.decrypt_encrypt (e : CellEncryption)
    (nonce data : List Nat) (hn : nonce.length = 12) :
    e.decrypt (e.encrypt nonce data) = .ok data := by
  unfold CellEncryption.decrypt CellEncryption.encrypt
  rw [show (12 : Nat) = nonce.length from hn.symm, take_len_append,
    drop_len_append]
  exact aesgcmDecrypt_encrypt _ _ _ (by omega) (by omega)

/-- Flipping any single byte of the stored triple `nonce || body || tag`
makes decryption fail tag verification. -/
theorem cellDecrypt_tamper (e : CellEncryption) (nonce p : List Nat)
    (hn12 : nonce.length = 12) (hnb : ∀ b ∈ nonce, b < 256)
    (hpb : ∀ b ∈ p, b < 256) (i : Nat)
    (hi : i < (e.encrypt nonce p).length) (δ : Nat) (hδ : 0 < δ)
    (hδ' : δ < 256) :
    e.decrypt ((e.encrypt nonce p).set i ((e.encrypt nonce p)[i] ^^^ δ))
      = .error .invalidTag := by
  have hbl : (xorKs e.cell_key nonce 0 p).length = p.length :=
    xorKs_length _ _ _ _
  have hbb : ∀ b ∈ xorKs e.cell_key nonce 0 p, b < 256 :=
    xorKs_lt _ _ _ _ hpb
  have htl : (gcmTag e.cell_key nonce (xorKs e.cell_key nonce 0 p)).length = 16 :=
    gcmTag_length _ _ _
  simp only [CellEncryption.encrypt, aesgcmEncrypt] at hi ⊢
  have hlen : (nonce ++ (xorKs e.cell_key nonce 0 p
      ++ gcmTag e.cell_key nonce (xorKs e.cell_key nonce 0 p))).length
      = 12 + p.length + 16 := by
    simp only [List.length_append, hn12, hbl, htl]
    omega
  by_cases hA : i < 12
  · -- tampered byte lies in the nonce
    have hiN : i < nonce.length := by omega
    rw [List.getElem_append_left hiN, set_append_of_lt hiN]
    have hy : nonce[i] ^^^ δ < 256 := xor_byte_lt (hnb _ (List.getElem_mem hiN)) hδ'
    unfold CellEncryption.decrypt
    have h12 : (nonce.set i (nonce[i] ^^^ δ)).length = 12 := by simp [hn12]
    rw [show (12 : Nat) = (nonce.set i (nonce[i] ^^^ δ)).length from h12.symm,
      take_len_append, drop_len_append,
      aesgcmDecrypt_append _ _ _ _ (by omega) (by omega) htl]
    rw [if_neg]
    intro hcontra
    have hne : nonce ≠ nonce.set i (nonce[i] ^^^ δ) :=
      (set_ne_self nonce i hiN _ (xor_ne_self hδ)).symm
    exact gcmTag_ne_of_nonce_ne (all_lt_encB_of_lt_256 hnb)
      (all_lt_encB_of_lt_256 (set_all_lt hnb hy)) hne
      e.cell_key (xorKs e.cell_key nonce 0 p) (xorKs e.cell_key nonce 0 p) hcontra
  · by_cases hB : i < 12 + p.length
    · -- tampered byte lies in the ciphertext body
      have hiN : nonce.length ≤ i := by omega
      have hiB : i - nonce.length < (xorKs e.cell_key nonce 0 p).length := by
        omega
      rw [List.getElem_append_right hiN, List.getElem_append_left hiB,
        set_append_of_ge hiN, set_append_of_lt hiB]
      set y := (xorKs e.cell_key nonce 0 p)[i - nonce.length] ^^^ δ with hydef
      have hy : y < 256 :=
        xor_byte_lt (hbb _ (List.getElem_mem hiB)) hδ'
      unfold CellEncryption.decrypt
      rw [show (12 : Nat) = nonce.length from hn12.symm, take_len_append,
        drop_len_append,
        aesgcmDecrypt_append _ _ _ _ (by omega) (by omega) htl]
      rw [if_neg]
      intro hcontra
      have hne : xorKs e.cell_key nonce 0 p
          ≠ (xorKs e.cell_key nonce 0 p).set (i - nonce.length) y :=
        (set_ne_self _ _ hiB _ (xor_ne_self hδ)).symm
      exact gcmTag_ne_of_body_ne (all_lt_encB_of_lt_256 hbb)
        (all_lt_encB_of_lt_256 (set_all_lt hbb hy)) hne
        e.cell_key nonce hcontra
    · -- tampered byte lies in the tag
      rw [hlen] at hi
      have hiN : nonce.length ≤ i := by omega
      have hiB : (xorKs e.cell_key nonce 0 p).length ≤ i - nonce.length := by
        omega
      have hiT : i - nonce.length - (xorKs e.cell_key nonce 0 p).length
          < (gcmTag e.cell_key nonce (xorKs e.cell_key nonce 0 p)).length := by
        omega
      rw [List.getElem_append_right hiN, List.getElem_append_right hiB,
        set_append_of_ge hiN, set_append_of_ge hiB]
      set tg := gcmTag e.cell_key nonce (xorKs e.cell_key nonce 0 p) with htgdef
      set j := i - nonce.length - (xorKs e.cell_key nonce 0 p).length with hjdef
      unfold CellEncryption.decrypt
      have htl' : (tg.set j (tg[j] ^^^ δ)).length = 16 := by
        simp [htgdef, htl]
      rw [show (12 : Nat) = nonce.length from hn12.symm, take_len_append,
        drop_len_append,
        aesgcmDecrypt_append _ _ _ _ (by omega) (by omega) htl']
      rw [if_neg]
      intro hcontra
      exact set_ne_self tg j hiT _ (xor_ne_self hδ) hcontra

/-! ## Key wrapping -/

/-- Wrapping a data key for a cell
(`CellEncryption(cell_id, master_key).encrypt(data_key.hex())` in
`create_cell` / `rotate_cell_key`). -/
def wrapDataKey (masterKey : List Nat) (cell_id : String)
    (nonce dataKey : List Nat) : List Nat :=
  CellEncryption.encrypt ⟨cell_id, masterKey⟩ nonce (hexEncode dataKey)

/-- Unwrapping a stored cell key
(`bytes.fromhex(cell_encryption.decrypt(cell_key.encrypted_key))` in the
secrets endpoints).  A failed tag check propagates as `invalidTag`
(the library's `InvalidTag`, the spec's `CryptoError::Decrypt`); a non-hex
decrypted string makes `bytes.fromhex` raise `ValueError`. -/
def unwrapDataKey (masterKey : List Nat) (cell_id : String)
    (encrypted_key : List Nat) : Except VErr (List Nat) :=
  match CellEncryption.decrypt ⟨cell_id, masterKey⟩ encrypted_key with
  | .error e => .error e
  | .ok hx =>
    match hexDecode hx with
    | some k => .ok k
    | none => .error .valueError

theorem unwrapDataKey_wrapDataKey (masterKey : List Nat) (cell_id : String)
    (nonce dataKey : List Nat) (hn : nonce.length = 12)
    (hK : ∀ b ∈ dataKey, b < 256) :
    unwrapDataKey masterKey cell_id (wrapDataKey masterKey cell_id nonce dataKey)
      = .ok dataKey := by
  unfold unwrapDataKey wrapDataKey
  rw [CellEncryption.decrypt_encrypt _ _ _ hn]
  simp [hexDecode_hexEncode hK]

/-- Unwrapping a key wrapped for a *different* cell fails the tag check:
the PBKDF2 salt (the cell id) differs, so the derived subkey differs. -/
theorem unwrapDataKey_wrong_cell (masterKey : List Nat) (C C' : String)
    (nonce dataKey : List Nat) (hn : nonce.length = 12) (hne : C ≠ C') :
    unwrapDataKey masterKey C' (wrapDataKey masterKey C nonce dataKey)
      = .error .invalidTag := by
  have hkne : CellEncryption.cell_key ⟨C, masterKey⟩
      ≠ CellEncryption.cell_key ⟨C', masterKey⟩ := by
    apply deriveKey_ne_of_salt_ne (strBytes_lt C) (strBytes_lt C')
    intro hsb
    exact hne (strBytes_inj hsb)
  unfold unwrapDataKey wrapDataKey CellEncryption.encrypt aesgcmEncrypt
    CellEncryption.decrypt
  rw [show (12 : Nat) = nonce.length from hn.symm, take_len_append,
    drop_len_append]
  rw [aesgcmDecrypt_append _ _ _ _ (by omega) (by omega) (gcmTag_length _ _ _)]
  rw [if_neg (gcmTag_ne_of_key_ne hkne _ _ _ _)]

/-- C6: for every cipher instance, every 12-byte nonce and every plaintext up
to the 1 MiB payload bound, decrypt ∘ encrypt is the identity, and flipping
any single byte of the stored binary triple (nonce, ciphertext body, or tag)
makes decryption fail with the `InvalidTag` error (the spec's
`CryptoError::Decrypt`) rather than return a plaintext. -/
theorem claim_c6_roundtrip_and_tamper (e : CellEncryption) (nonce p : List Nat)
    (hn12 : nonce.length = 12) (hnb : ∀ b ∈ nonce, b < 256)
    (hpb : ∀ b ∈ p, b < 256) (_hbound : p.length ≤ 1048576) :
    e.decrypt (e.encrypt nonce p) = .ok p ∧
    ∀ (i : Nat) (hi : i < (e.encrypt nonce p).length) (δ : Nat), 0 < δ →
      δ < 256 →
      e.decrypt ((e.encrypt nonce p).set i ((e.encrypt nonce p)[i] ^^^ δ))
        = .error .invalidTag :=
  ⟨CellEncryption.decrypt_encrypt e nonce p hn12,
   fun i hi δ h1 h2 => cellDecrypt_tamper e nonce p hn12 hnb hpb i hi δ h1 h2⟩

/-- C6 witness: the property evaluated at a concrete cipher, nonce and
plaintext. -/
theorem claim_c6_witness :
    CellEncryption.decrypt ⟨"c1", List.replicate 32 7⟩
        (CellEncryption.encrypt ⟨"c1", List.replicate 32 7⟩
          (List.replicate 12 1) [104, 105]) = .ok [104, 105] ∧
    ∀ (i : Nat)
      (hi : i < (CellEncryption.encrypt ⟨"c1", List.replicate 32 7⟩
        (List.replicate 12 1) [104, 105]).length) (δ : Nat), 0 < δ → δ < 256 →
      CellEncryption.decrypt ⟨"c1", List.replicate 32 7⟩
          ((CellEncryption.encrypt ⟨"c1", List.replicate 32 7⟩
              (List.replicate 12 1) [104, 105]).set i
            ((CellEncryption.encrypt ⟨"c1", List.replicate 32 7⟩
              (List.replicate 12 1) [104, 105])[i] ^^^ δ))
        = .error .invalidTag :=
  claim_c6_roundtrip_and_tamper ⟨"c1", List.replicate 32 7⟩
    (List.replicate 12 1) [104, 105] (by decide) (by decide) (by decide)
    (by decide)

/-- C7: a data key wrapped for cell C unwraps correctly in the context of C,
and fails the AEAD tag check (the spec's `CryptoError::Decrypt`) in the
context of any other cell C', because the subkey derived with salt C'
differs. -/
theorem claim_c7_wrap_bound_to_cell (masterKey K : List Nat) (C C' : String)
    (nonce : List Nat) (hn : nonce.length = 12) (hK : ∀ b ∈ K, b < 256)
    (hne : C ≠ C') :
    unwrapDataKey masterKey C (wrapDataKey masterKey C nonce K) = .ok K ∧
    unwrapDataKey masterKey C' (wrapDataKey masterKey C nonce K)
      = .error .invalidTag :=
  ⟨unwrapDataKey_wrapDataKey masterKey C nonce K hn hK,
   unwrapDataKey_wrong_cell masterKey C C' nonce K hn hne⟩

/-- C7 witness: the property evaluated at a concrete master key, data key and
cell pair. -/
theorem claim_c7_witness :
    unwrapDataKey (List.replicate 32 7) "c1"
        (wrapDataKey (List.replicate 32 7) "c1" (List.replicate 12 0)
          (List.replicate 32 1)) = .ok (List.replicate 32 1) ∧
    unwrapDataKey (List.replicate 32 7) "c2"
        (wrapDataKey (List.replicate 32 7) "c1" (List.replicate 12 0)
          (List.replicate 32 1)) = .error .invalidTag :=
  claim_c7_wrap_bound_to_cell (List.replicate 32 7) (List.replicate 32 1)
    "c1" "c2" (List.replicate 12 0) (by decide) (by decide) (by decide)

/-- C8 (amended): an input whose decoded binary form is at least 8 and fewer
than 28 bytes is rejected with `InvalidTag` (the spec's
`CryptoError::Decrypt`): the AEAD receives fewer than 16 bytes after the
12-byte nonce is split off.  (Inputs shorter than 8 bytes instead fail the
AEAD's nonce-length validation with `ValueError`; see the counterexample.) -/
theorem claim_c8_short_input (e : CellEncryption) (data : List Nat)
    (h8 : 8 ≤ data.length) (h28 : data.length < 28) :
    e.decrypt data = .error .invalidTag := by
  unfold CellEncryption.decrypt aesgcmDecrypt
  have h1 : ¬((data.take 12).length < 8 ∨ 128 < (data.take 12).length) := by
    simp only [List.length_take]
    omega
  rw [if_neg h1]
  have h2 : (data.drop 12).length < 16 := by
    simp only [List.length_drop]
    omega
  rw [if_pos h2]

/-- C8 witness: a concrete 10-byte input is rejected with `InvalidTag`. -/
theorem claim_c8_witness :
    CellEncryption.decrypt ⟨"c1", [0]⟩ (List.replicate 10 0)
      = .error .invalidTag :=
  claim_c8_short_input ⟨"c1", [0]⟩ (List.replicate 10 0) (by decide) (by decide)

/-- C8 counterexample: the claim fails on inputs shorter than 8 bytes.  The
empty input leaves a 0-byte nonce, which the AEAD rejects with `ValueError`
— a different error from the `InvalidTag`/`CryptoError::Decrypt` outcome the
claim requires for *every* input shorter than 28 bytes. -/
theorem claim_c8_counterexample :
    CellEncryption.decrypt ⟨"c1", [0]⟩ [] = .error .valueError ∧
    VErr.valueError ≠ VErr.invalidTag := by
  constructor
  · rfl
  · intro h
    cases h

/-! ## Data model

Row types mirror `core/models.py` and the migration
`20250322_initial.py`.  Only the columns the claims touch are carried;
timestamps (`created_at` / `updated_at`) and free-text columns that no claim
inspects are omitted.  Row ids (`str(uuid4())` in the source) are modelled as
explicit parameters.  Ciphertext columns hold the binary triple (base64
transport elided).  `expires_at` is modelled as an abstract instant
(`Option Nat`), `none` meaning NULL. -/

/-- Abbreviated JSON-object metadata (`metadata = Column(JSON)`). -/
abbrev Metadata := List (String × String)

structure CellRow where
  id : String
  name : String
  deriving DecidableEq, Repr

structure CellKeyRow where
  cell_id : String
  version : Nat
  active : Bool
  encrypted_key : List Nat
  deriving DecidableEq, Repr

structure SecretRow where
  id : Nat
  cell_id : String
  key : String
  value : List Nat
  version : Nat
  metadata : Option Metadata
  deriving DecidableEq, Repr

structure SecretVersionRow where
  secret_id : Nat
  value : List Nat
  version : Nat
  deriving DecidableEq, Repr

structure CellPermissionRow where
  cell_id : String
  user_id : String
  permission : String
  expires_at : Option Nat
  deriving DecidableEq, Repr

structure AuditLogRow where
  user_id : Option String
  action : String
  resource_type : String
  resource_id : Option String
  cell_id : Option String
  deriving DecidableEq, Repr

/-- The relational store, one list per table. -/
structure DB where
  cells : List CellRow
  secrets : List SecretRow
  secretVersions : List SecretVersionRow
  cellKeys : List CellKeyRow
  cellPermissions : List CellPermissionRow
  auditLogs : List AuditLogRow
  deriving DecidableEq, Repr

/-- The authenticated subject (`current_user`); only the fields the
endpoints read. -/
structure User where
  id : String
  is_superuser : Bool
  deriving DecidableEq, Repr

/-- Request body of `POST /{cell_id}/secrets` (`SecretCreate`). -/
structure SecretCreate where
  key : String
  value : List Nat
  metadata : Option Metadata
  deriving DecidableEq, Repr

/-- Request body of `PUT /{cell_id}/secrets/{secret_key}` (`SecretUpdate`). -/
structure SecretUpdate where
  value : List Nat
  metadata : Option Metadata
  deriving DecidableEq, Repr

/-- Request body of `POST /cells/` (`CellCreate`); only the unique name is
carried. -/
structure CellCreate where
  name : String
  deriving DecidableEq, Repr

/-- Request body of `PUT /cells/{cell_id}` (`CellUpdate`). -/
structure CellUpdate where
  name : Option String
  deriving DecidableEq, Repr

/-- Update the first row satisfying `p` (the ORM mutates the single object a
`.first()` query returned, then commits). -/
def updateFirst {α : Type} (p : α → Bool) (f : α → α) : List α → List α
  | [] => []
  | a :: as => if p a then f a :: as else a :: updateFirst p f as

/-- Remove the first row satisfying `p` (`db.delete(obj)` on a `.first()`
result). -/
def removeFirst {α : Type} (p : α → Bool) : List α → List α
  | [] => []
  | a :: as => if p a then as else a :: removeFirst p as

/-! ## Permission filters (the `.filter(...)` clauses of the source)

None of the queries in the source constrains `expires_at`; the filters below
reproduce exactly the conjuncts that appear in the code. -/

/-- Filter of `create_secret` / `update_secret` / `delete_secret`:
`permission.in_(["write", "admin"])` for (cell, user). -/
def permWrite (cell_id uid : String) (r : CellPermissionRow) : Bool :=
  r.cell_id = cell_id && r.user_id = uid
    && (r.permission = "write" || r.permission = "admin")

/-- Filter of `get_secret` / `get_cell`: any permission row for
(cell, user). -/
def permAny (cell_id uid : String) (r : CellPermissionRow) : Bool :=
  r.cell_id = cell_id && r.user_id = uid

/-- Filter of `update_cell` / `rotate_cell_key` / `delete_cell`:
`permission == "admin"` for (cell, user). -/
def permAdmin (cell_id uid : String) (r : CellPermissionRow) : Bool :=
  r.cell_id = cell_id && r.user_id = uid && r.permission = "admin"

/-- The `(cell_id, key)` lookup used by the secrets endpoints. -/
def secretMatch (cell_id secret_key : String) (s : SecretRow) : Bool :=
  s.cell_id = cell_id && s.key = secret_key

/-- The "active cell key" lookup `CellKey.cell_id == cell_id,
CellKey.active == True`. -/
def activeKeyMatch (cell_id : String) (k : CellKeyRow) : Bool :=
  k.cell_id = cell_id && k.active

/-- The fetch-and-unwrap block of `create_secret` (secrets.py 60..74): a
missing active key is caught and reported as the 500 "No active encryption
key found for cell" error. -/
def activeDataKeyChecked (masterKey : List Nat) (db : DB) (cell_id : String) :
    Except VErr (List Nat) :=
  match db.cellKeys.find? (activeKeyMatch cell_id) with
  | none => .error .noActiveKey
  | some ck => unwrapDataKey masterKey cell_id ck.encrypted_key

/-- The same block in `get_secret` / `update_secret` (secrets.py 164..173 and
222..231), which performs no `None` check: the attribute access
`cell_key.encrypted_key` on `None` raises `AttributeError`. -/
def activeDataKeyUnchecked (masterKey : List Nat) (db : DB)
    (cell_id : String) : Except VErr (List Nat) :=
  match db.cellKeys.find? (activeKeyMatch cell_id) with
  | none => .error .attributeError
  | some ck => unwrapDataKey masterKey cell_id ck.encrypted_key

/-- Python truthiness of the optional `metadata` field: `None` and the empty
dict are falsy (`if secret_in.metadata:`). -/
def metaTruthy : Option Metadata → Bool
  | none => false
  | some m => !m.isEmpty

/-! ## Secrets endpoints (`api/v1/endpoints/secrets.py`) -/

/-- `POST /{cell_id}/secrets` — `create_secret`.  Checks cell existence,
write permission, key uniqueness and the active cell key; encrypts the value
under the unwrapped data key; appends the `Secret` row (version 1) and its
initial `SecretVersion`; echoes the plaintext back in the response row. -/
def create_secret (masterKey : List Nat) (db : DB) (u : User)
    (cell_id : String) (secret_in : SecretCreate) (nonce : List Nat)
    (newId : Nat) : Except VErr (DB × SecretRow) :=
  match db.cells.find? (fun c => c.id = cell_id) with
  | none => .error .notFound
  | some _ =>
    match !u.is_superuser
        && (db.cellPermissions.find? (permWrite cell_id u.id)).isNone with
    | true => .error .forbidden
    | false =>
      match db.secrets.find? (secretMatch cell_id secret_in.key) with
      | some _ => .error .alreadyExists
      | none =>
        match activeDataKeyChecked masterKey db cell_id with
        | .error e => .error e
        | .ok key_bytes =>
          let encrypted_value :=
            CellEncryption.encrypt ⟨cell_id, key_bytes⟩ nonce secret_in.value
          let secret : SecretRow :=
            { id := newId, cell_id := cell_id, key := secret_in.key,
              value := encrypted_value, version := 1,
              metadata := secret_in.metadata }
          let ver : SecretVersionRow :=
            { secret_id := newId, value := encrypted_value, version := 1 }
          .ok ({ db with
                  secrets := db.secrets ++ [secret]
                  secretVersions := db.secretVersions ++ [ver] },
               { secret with value := secret_in.value })

/-- `GET /{cell_id}/secrets/{secret_key}` — `get_secret`.  The permission
check accepts any (cell, user) row; `if version:` treats `None` and `0` as
"current".  The stored ciphertext (current or historical) is decrypted with
the data key unwrapped from the *currently active* cell key; the store is
not modified (the in-session mutation of `secret.value` is never
committed). -/
def get_secret (masterKey : List Nat) (db : DB) (u : User) (cell_id : String)
    (secret_key : String) (version : Option Nat) :
    Except VErr (DB × SecretRow) :=
  match !u.is_superuser
      && (db.cellPermissions.find? (permAny cell_id u.id)).isNone with
  | true => .error .forbidden
  | false =>
    match db.secrets.find? (secretMatch cell_id secret_key) with
    | none => .error .notFound
    | some secret =>
      match (match version with
        | none => Except.ok secret.value
        | some v =>
          match v == 0 with
          | true => Except.ok secret.value
          | false =>
            match db.secretVersions.find?
                (fun sv => sv.secret_id = secret.id && sv.version = v) with
            | none => Except.error VErr.notFound
            | some sv => Except.ok sv.value : Except VErr (List Nat)) with
      | .error e => .error e
      | .ok encrypted_value =>
        match activeDataKeyUnchecked masterKey db cell_id with
        | .error e => .error e
        | .ok key_bytes =>
          match CellEncryption.decrypt ⟨cell_id, key_bytes⟩ encrypted_value with
          | .error e => .error e
          | .ok plaintext => .ok (db, { secret with value := plaintext })

/-- `PUT /{cell_id}/secrets/{secret_key}` — `update_secret`.  Encrypts the
new value under the data key unwrapped from the active cell key (no `None`
check), appends a `SecretVersion` at `version + 1`, and updates the secret
row: new ciphertext, incremented version, and metadata only when the request
metadata is truthy. -/
def update_secret (masterKey : List Nat) (db : DB) (u : User)
    (cell_id : String) (secret_key : String) (secret_in : SecretUpdate)
    (nonce : List Nat) : Except VErr (DB × SecretRow) :=
  match !u.is_superuser
      && (db.cellPermissions.find? (permWrite cell_id u.id)).isNone with
  | true => .error .forbidden
  | false =>
    match db.secrets.find? (secretMatch cell_id secret_key) with
    | none => .error .notFound
    | some secret =>
      match activeDataKeyUnchecked masterKey db cell_id with
      | .error e => .error e
      | .ok key_bytes =>
        let encrypted_value :=
          CellEncryption.encrypt ⟨cell_id, key_bytes⟩ nonce secret_in.value
        let ver : SecretVersionRow :=
          { secret_id := secret.id, value := encrypted_value,
            version := secret.version + 1 }
        let upd : SecretRow → SecretRow := fun s =>
          { s with
              value := encrypted_value
              version := s.version + 1
              metadata := if metaTruthy secret_in.metadata then
                secret_in.metadata else s.metadata }
        .ok ({ db with
                secretVersions := db.secretVersions ++ [ver]
                secrets := updateFirst (secretMatch cell_id secret_key) upd
                  db.secrets },
             { upd secret with value := secret_in.value })

/-- `DELETE /{cell_id}/secrets/{secret_key}` — `delete_secret`.  Removes the
secret row; the ORM cascade removes its versions. -/
def delete_secret (db : DB) (u : User) (cell_id : String)
    (secret_key : String) : Except VErr (DB × Unit) :=
  match !u.is_superuser
      && (db.cellPermissions.find? (permWrite cell_id u.id)).isNone with
  | true => .error .forbidden
  | false =>
    match db.secrets.find? (secretMatch cell_id secret_key) with
    | none => .error .notFound
    | some secret =>
      .ok ({ db with
              secrets := removeFirst (secretMatch cell_id secret_key) db.secrets
              secretVersions := db.secretVersions.filter
                (fun sv => !(sv.secret_id = secret.id)) }, ())

/-! ## Cells endpoints (`api/v1/endpoints/cells.py`) and `KeyRotation` -/

/-- A Python value as handled by the key-wrapping line: `rotate_key()`
returns an `int`, while the surrounding code expects `bytes`. -/
inductive PyVal where
  | int (n : Nat)
  | bytes (bs : List Nat)
  deriving DecidableEq, Repr

/-- Python attribute access `.hex()`: defined on `bytes`; on an `int` it
raises `AttributeError` (`'int' object has no attribute 'hex'`). -/
def pyHex : PyVal → Except VErr (List Nat)
  | .int _ => .error .attributeError
  | .bytes bs => .ok (hexEncode bs)

/-- `KeyRotation` (`core/security.py` 41..59): `current_key_version` starts
at 1 and `keys` empty. -/
structure KeyRotation where
  cell_id : String
  current_key_version : Nat
  keys : List (Nat × List Nat)
  deriving DecidableEq, Repr

/-- `KeyRotation.__init__`. -/
def KeyRotation.init (cell_id : String) : KeyRotation :=
  { cell_id := cell_id, current_key_version := 1, keys := [] }

/-- `KeyRotation.rotate_key`: stores a fresh 32-byte key (`os.urandom(32)`,
passed in as `fresh`) under version `current_key_version + 1` and returns
`self.current_key_version` — the new version number, an `int`. -/
def KeyRotation.rotate_key (kr : KeyRotation) (fresh : List Nat) :
    KeyRotation × PyVal :=
  let v := kr.current_key_version + 1
  ({ kr with current_key_version := v, keys := (v, fresh) :: kr.keys }, .int v)

/-- `POST /cells/` — `create_cell`, with the key-wrapping step repaired: the
literal source wraps `initial_key.hex()` where `initial_key` is the `int`
returned by `rotate_key()`, raising `AttributeError` (recorded as claim C2;
see `create_cell_literal`).  Here the fresh 32-byte data key itself — the
value `rotate_key` stores into `KeyRotation.keys` — is hex-encoded and
wrapped, which is what the surrounding code requires; the other claims are
settled against this repaired operation.  The store's primary-key constraint
on `cells.id` is modelled as an explicit `conflict` check. -/
def create_cell (masterKey : List Nat) (db : DB) (u : User)
    (cell_in : CellCreate) (newCellId : String)
    (dataKey wrapNonce : List Nat) : Except VErr (DB × CellRow) :=
  match u.is_superuser with
  | false => .error .forbidden
  | true =>
  match db.cells.find? (fun c => c.id = newCellId) with
  | some _ => .error .conflict
  | none =>
    let cell : CellRow := { id := newCellId, name := cell_in.name }
    let encrypted_key := wrapDataKey masterKey newCellId wrapNonce dataKey
    let cell_key : CellKeyRow :=
      { cell_id := newCellId, version := 1, active := true,
        encrypted_key := encrypted_key }
    let permission : CellPermissionRow :=
      { cell_id := newCellId, user_id := u.id, permission := "admin",
        expires_at := none }
    .ok ({ db with
            cells := db.cells ++ [cell]
            cellKeys := db.cellKeys ++ [cell_key]
            cellPermissions := db.cellPermissions ++ [permission] }, cell)

/-- The literal `create_cell` (cells.py 13..61): wraps
`initial_key.hex()` where `initial_key` is the `int` that
`KeyRotation.rotate_key()` returned. -/
def create_cell_literal (masterKey : List Nat) (db : DB) (u : User)
    (cell_in : CellCreate) (newCellId : String)
    (freshKey wrapNonce : List Nat) : Except VErr (DB × CellRow) :=
  match u.is_superuser with
  | false => .error .forbidden
  | true =>
  match db.cells.find? (fun c => c.id = newCellId) with
  | some _ => .error .conflict
  | none =>
    let cell : CellRow := { id := newCellId, name := cell_in.name }
    let rotated := (KeyRotation.init newCellId).rotate_key freshKey
    match pyHex rotated.2 with
    | .error e => .error e
    | .ok hexStr =>
      let encrypted_key :=
        CellEncryption.encrypt ⟨newCellId, masterKey⟩ wrapNonce hexStr
      let cell_key : CellKeyRow :=
        { cell_id := newCellId, version := 1, active := true,
          encrypted_key := encrypted_key }
      let permission : CellPermissionRow :=
        { cell_id := newCellId, user_id := u.id, permission := "admin",
          expires_at := none }
      .ok ({ db with
              cells := db.cells ++ [cell]
              cellKeys := db.cellKeys ++ [cell_key]
              cellPermissions := db.cellPermissions ++ [permission] }, cell)

/-- `PUT /cells/{cell_id}` — `update_cell`: admin-only metadata update
(modelled on the name field). -/
def update_cell (db : DB) (u : User) (cell_id : String)
    (cell_in : CellUpdate) : Except VErr (DB × CellRow) :=
  match db.cells.find? (fun c => c.id = cell_id) with
  | none => .error .notFound
  | some cell =>
    match !u.is_superuser
        && (db.cellPermissions.find? (permAdmin cell_id u.id)).isNone with
    | true => .error .forbidden
    | false =>
      let upd : CellRow → CellRow := fun c =>
        { c with name := match cell_in.name with
            | some n => n
            | none => c.name }
      .ok ({ db with
              cells := updateFirst (fun c => c.id = cell_id) upd db.cells },
           upd cell)

/-- `POST /cells/{cell_id}/rotate` — `rotate_cell_key`, with the same
repaired wrap step as `create_cell` (the literal source raises
`AttributeError`, see `rotate_cell_key_literal` and claim C2).  Fetches the
active key row (`.first()`, possibly `None`), deactivates it in place when
present, and appends a new active row at version `current.version + 1`
(or 1 when no key was active). -/
def rotate_cell_key (masterKey : List Nat) (db : DB) (u : User)
    (cell_id : String) (dataKey wrapNonce : List Nat) :
    Except VErr (DB × CellRow) :=
  match db.cells.find? (fun c => c.id = cell_id) with
  | none => .error .notFound
  | some cell =>
    match !u.is_superuser
        && (db.cellPermissions.find? (permAdmin cell_id u.id)).isNone with
    | true => .error .forbidden
    | false =>
      match db.cellKeys.find? (activeKeyMatch cell_id) with
      | some current_key =>
        let newRow : CellKeyRow :=
          { cell_id := cell_id
            version := current_key.version + 1
            active := true
            encrypted_key := wrapDataKey masterKey cell_id wrapNonce dataKey }
        let deactivated := updateFirst (activeKeyMatch cell_id)
          (fun k => { k with active := false }) db.cellKeys
        .ok ({ db with cellKeys := deactivated ++ [newRow] }, cell)
      | none =>
        let newRow : CellKeyRow :=
          { cell_id := cell_id
            version := 1
            active := true
            encrypted_key := wrapDataKey masterKey cell_id wrapNonce dataKey }
        .ok ({ db with cellKeys := db.cellKeys ++ [newRow] }, cell)

/-- The literal `rotate_cell_key` (cells.py 159..225): wraps
`new_key.hex()` where `new_key` is the `int` that `rotate_key()`
returned. -/
def rotate_cell_key_literal (masterKey : List Nat) (db : DB) (u : User)
    (cell_id : String) (freshKey wrapNonce : List Nat) :
    Except VErr (DB × CellRow) :=
  match db.cells.find? (fun c => c.id = cell_id) with
  | none => .error .notFound
  | some cell =>
    match !u.is_superuser
        && (db.cellPermissions.find? (permAdmin cell_id u.id)).isNone with
    | true => .error .forbidden
    | false =>
      let current_key := db.cellKeys.find? (activeKeyMatch cell_id)
      let rotated := (KeyRotation.init cell_id).rotate_key freshKey
      match pyHex rotated.2 with
      | .error e => .error e
      | .ok hexStr =>
        let encrypted_key :=
          CellEncryption.encrypt ⟨cell_id, masterKey⟩ wrapNonce hexStr
        let deactivated := match current_key with
          | some _ => updateFirst (activeKeyMatch cell_id)
              (fun k => { k with active := false }) db.cellKeys
          | none => db.cellKeys
        let newVer := match current_key with
          | some ck => ck.version + 1
          | none => 1
        let cell_key : CellKeyRow :=
          { cell_id := cell_id, version := newVer, active := true,
            encrypted_key := encrypted_key }
        .ok ({ db with cellKeys := deactivated ++ [cell_key] }, cell)

/-- `DELETE /cells/{cell_id}` — `delete_cell`: removes the cell; the
foreign-key cascade removes its secrets, their versions, its keys and its
permissions.  (The `SET NULL` referential action on `audit_logs.cell_id` is
the store's, outside the modelled core.) -/
def delete_cell (db : DB) (u : User) (cell_id : String) :
    Except VErr (DB × Unit) :=
  match db.cells.find? (fun c => c.id = cell_id) with
  | none => .error .notFound
  | some _ =>
    match !u.is_superuser
        && (db.cellPermissions.find? (permAdmin cell_id u.id)).isNone with
    | true => .error .forbidden
    | false =>
      let deadIds := (db.secrets.filter (fun s => s.cell_id = cell_id)).map
        (fun s => s.id)
      .ok ({ db with
              cells := removeFirst (fun c => c.id = cell_id) db.cells
              secrets := db.secrets.filter (fun s => !(s.cell_id = cell_id))
              secretVersions := db.secretVersions.filter
                (fun sv => !(deadIds.contains sv.secret_id))
              cellKeys := db.cellKeys.filter
                (fun k => !(k.cell_id = cell_id))
              cellPermissions := db.cellPermissions.filter
                (fun p => !(p.cell_id = cell_id)) }, ())

/-! ## Operation dispatch and the audit middleware -/

/-- The state-changing and reading operations of the modelled core, with
their request arguments (randomness and fresh row ids included). -/
inductive VaultOp where
  | opCreateSecret (cell_id : String) (secret_in : SecretCreate)
      (nonce : List Nat) (newId : Nat)
  | opGetSecret (cell_id secret_key : String) (version : Option Nat)
  | opUpdateSecret (cell_id secret_key : String) (secret_in : SecretUpdate)
      (nonce : List Nat)
  | opDeleteSecret (cell_id secret_key : String)
  | opCreateCell (cell_in : CellCreate) (newCellId : String)
      (dataKey wrapNonce : List Nat)
  | opUpdateCell (cell_id : String) (cell_in : CellUpdate)
  | opDeleteCell (cell_id : String)
  | opRotateCellKey (cell_id : String) (dataKey wrapNonce : List Nat)
  deriving DecidableEq, Repr

/-- Dispatch an operation against the store, keeping the resulting store. -/
def runOp (masterKey : List Nat) (u : User) (db : DB) :
    VaultOp → Except VErr DB
  | .opCreateSecret c i n id =>
    (create_secret masterKey db u c i n id).map Prod.fst
  | .opGetSecret c k v => (get_secret masterKey db u c k v).map Prod.fst
  | .opUpdateSecret c k i n =>
    (update_secret masterKey db u c k i n).map Prod.fst
  | .opDeleteSecret c k => (delete_secret db u c k).map Prod.fst
  | .opCreateCell i nc dk wn =>
    (create_cell masterKey db u i nc dk wn).map Prod.fst
  | .opUpdateCell c i => (update_cell db u c i).map Prod.fst
  | .opDeleteCell c => (delete_cell db u c).map Prod.fst
  | .opRotateCellKey c dk wn =>
    (rotate_cell_key masterKey db u c dk wn).map Prod.fst

/-- Which operations change state (everything except the read). -/
def isStateChanging : VaultOp → Bool
  | .opGetSecret _ _ _ => false
  | _ => true

/-- The audit action vocabulary (spec §6) for each operation. -/
def auditAction : VaultOp → String
  | .opCreateSecret .. => "secret.create"
  | .opGetSecret .. => "secret.read"
  | .opUpdateSecret .. => "secret.update"
  | .opDeleteSecret .. => "secret.delete"
  | .opCreateCell .. => "cell.create"
  | .opUpdateCell .. => "cell.update"
  | .opDeleteCell .. => "cell.delete"
  | .opRotateCellKey .. => "cell.key.rotate"

/-- Modelled from the spec: the audit record appended for a state-changing
operation.  The repository's audit middleware
(`secure_cell_vault/middleware/audit.py`, imported by `main.py`) is not
present under `src/`; spec §4.7 specifies "Every state-changing core
operation appends exactly one audit record before returning success." -/
def auditRecordFor (u : User) (op : VaultOp) : AuditLogRow :=
  { user_id := some u.id
    action := auditAction op
    resource_type := match op with
      | .opCreateSecret .. | .opGetSecret .. | .opUpdateSecret ..
      | .opDeleteSecret .. => "secret"
      | _ => "cell"
    resource_id := none
    cell_id := none }

/-- Modelled from the spec: a state-changing operation composed with the
audit append of §4.7 (on success, exactly one record is appended; audit rows
are never updated or deleted). -/
def runOpAudited (masterKey : List Nat) (u : User) (db : DB) (op : VaultOp) :
    Except VErr DB :=
  match runOp masterKey u db op with
  | .error e => .error e
  | .ok db' =>
    if isStateChanging op then
      .ok { db' with auditLogs := db'.auditLogs ++ [auditRecordFor u op] }
    else .ok db'

/-! ## Frame lemmas: which tables each endpoint leaves untouched -/

theorem create_secret_frame {masterKey db u cid sin nonce newId db' r}
    (h : create_secret masterKey db u cid sin nonce newId = .ok (db', r)) :
    db'.cells = db.cells ∧ db'.cellKeys = db.cellKeys
      ∧ db'.cellPermissions = db.cellPermissions
      ∧ db'.auditLogs = db.auditLogs := by
  unfold create_secret at h
  repeat' split at h
  any_goals exact (Except.noConfusion h)
  simp only [Except.ok.injEq, Prod.mk.injEq] at h
  obtain ⟨h1, -⟩ := h
  subst h1
  exact ⟨rfl, rfl, rfl, rfl⟩

theorem get_secret_frame {masterKey db u cid skey v db' r}
    (h : get_secret masterKey db u cid skey v = .ok (db', r)) :
    db' = db := by
  unfold get_secret at h
  repeat' split at h
  any_goals exact (Except.noConfusion h)
  simp only [Except.ok.injEq, Prod.mk.injEq] at h
  exact h.1.symm

theorem update_secret_frame {masterKey db u cid skey sin nonce db' r}
    (h : update_secret masterKey db u cid skey sin nonce = .ok (db', r)) :
    db'.cells = db.cells ∧ db'.cellKeys = db.cellKeys
      ∧ db'.cellPermissions = db.cellPermissions
      ∧ db'.auditLogs = db.auditLogs := by
  unfold update_secret at h
  repeat' split at h
  any_goals exact (Except.noConfusion h)
  all_goals simp only [Except.ok.injEq, Prod.mk.injEq] at h
  all_goals obtain ⟨h1, -⟩ := h
  all_goals subst h1
  all_goals exact ⟨rfl, rfl, rfl, rfl⟩

theorem delete_secret_frame {db u cid skey db' r}
    (h : delete_secret db u cid skey = .ok (db', r)) :
    db'.cells = db.cells ∧ db'.cellKeys = db.cellKeys
      ∧ db'.cellPermissions = db.cellPermissions
      ∧ db'.auditLogs = db.auditLogs := by
  unfold delete_secret at h
  repeat' split at h
  any_goals exact (Except.noConfusion h)
  simp only [Except.ok.injEq, Prod.mk.injEq] at h
  obtain ⟨h1, -⟩ := h
  subst h1
  exact ⟨rfl, rfl, rfl, rfl⟩

theorem create_cell_frame {masterKey db u cin ncid dk wn db' r}
    (h : create_cell masterKey db u cin ncid dk wn = .ok (db', r)) :
    db'.secrets = db.secrets ∧ db'.secretVersions = db.secretVersions
      ∧ db'.auditLogs = db.auditLogs
      ∧ db'.cells = db.cells ++ [{ id := ncid, name := cin.name }]
      ∧ db'.cellKeys = db.cellKeys
          ++ [{ cell_id := ncid
                version := 1
                active := true
                encrypted_key := wrapDataKey masterKey ncid wn dk }] := by
  unfold create_cell at h
  repeat' split at h
  any_goals exact (Except.noConfusion h)
  simp only [Except.ok.injEq, Prod.mk.injEq] at h
  obtain ⟨h1, -⟩ := h
  subst h1
  exact ⟨rfl, rfl, rfl, rfl, rfl⟩

theorem update_cell_frame {db u cid cin db' r}
    (h : update_cell db u cid cin = .ok (db', r)) :
    db'.secrets = db.secrets ∧ db'.secretVersions = db.secretVersions
      ∧ db'.cellKeys = db.cellKeys
      ∧ db'.cellPermissions = db.cellPermissions
      ∧ db'.auditLogs = db.auditLogs
      ∧ db'.cells.map (fun c => c.id) = db.cells.map (fun c => c.id) := by
  unfold update_cell at h
  repeat' split at h
  any_goals exact (Except.noConfusion h)
  all_goals simp only [Except.ok.injEq, Prod.mk.injEq] at h
  all_goals obtain ⟨h1, -⟩ := h
  all_goals subst h1
  all_goals refine ⟨rfl, rfl, rfl, rfl, rfl, ?_⟩
  all_goals
    show (updateFirst (fun c => c.id = cid) _ db.cells).map _ = _
    generalize db.cells = l
    induction l with
    | nil => rfl
    | cons a l ih =>
      by_cases hp : (a.id = cid : Bool)
      · simp [updateFirst, hp]
      · simp only [updateFirst, hp]
        simp [ih]

theorem delete_cell_frame {db u cid db' r}
    (h : delete_cell db u cid = .ok (db', r)) :
    db'.auditLogs = db.auditLogs := by
  unfold delete_cell at h
  repeat' split at h
  any_goals exact (Except.noConfusion h)
  simp only [Except.ok.injEq, Prod.mk.injEq] at h
  obtain ⟨h1, -⟩ := h
  subst h1
  rfl

theorem rotate_cell_key_frame {masterKey db u cid dk wn db' r}
    (h : rotate_cell_key masterKey db u cid dk wn = .ok (db', r)) :
    db'.cells = db.cells ∧ db'.secrets = db.secrets
      ∧ db'.secretVersions = db.secretVersions
      ∧ db'.cellPermissions = db.cellPermissions
      ∧ db'.auditLogs = db.auditLogs := by
  unfold rotate_cell_key at h
  repeat' split at h
  any_goals exact (Except.noConfusion h)
  all_goals simp only [Except.ok.injEq, Prod.mk.injEq] at h
  all_goals obtain ⟨h1, -⟩ := h
  all_goals subst h1
  all_goals exact ⟨rfl, rfl, rfl, rfl, rfl⟩

/-- Whether an `Except` computation succeeded. -/
def exceptOk {ε α : Type} : Except ε α → Bool
  | .ok _ => true
  | .error _ => false

/-- The store after a successful endpoint call, or the given store on
failure. -/
def okState {α : Type} (d : DB) : Except VErr (DB × α) → DB
  | .ok p => p.1
  | .error _ => d

/-- None of the endpoints reads or writes `audit_logs`. -/
theorem runOp_auditLogs {masterKey : List Nat} {u : User} {db : DB}
    {op : VaultOp} {db' : DB} (h : runOp masterKey u db op = .ok db') :
    db'.auditLogs = db.auditLogs := by
  cases op with
  | opCreateSecret c i n id =>
    simp only [runOp] at h
    cases hc : create_secret masterKey db u c i n id with
    | error e => simp [hc, Except.map] at h
    | ok p =>
      obtain ⟨db'', r⟩ := p
      simp only [hc, Except.map, Except.ok.injEq] at h
      subst h
      exact (create_secret_frame hc).2.2.2
  | opGetSecret c k v =>
    simp only [runOp] at h
    cases hc : get_secret masterKey db u c k v with
    | error e => simp [hc, Except.map] at h
    | ok p =>
      obtain ⟨db'', r⟩ := p
      simp only [hc, Except.map, Except.ok.injEq] at h
      subst h
      rw [get_secret_frame hc]
  | opUpdateSecret c k i n =>
    simp only [runOp] at h
    cases hc : update_secret masterKey db u c k i n with
    | error e => simp [hc, Except.map] at h
    | ok p =>
      obtain ⟨db'', r⟩ := p
      simp only [hc, Except.map, Except.ok.injEq] at h
      subst h
      exact (update_secret_frame hc).2.2.2
  | opDeleteSecret c k =>
    simp only [runOp] at h
    cases hc : delete_secret db u c k with
    | error e => simp [hc, Except.map] at h
    | ok p =>
      obtain ⟨db'', r⟩ := p
      simp only [hc, Except.map, Except.ok.injEq] at h
      subst h
      exact (delete_secret_frame hc).2.2.2
  | opCreateCell i nc dk wn =>
    simp only [runOp] at h
    cases hc : create_cell masterKey db u i nc dk wn with
    | error e => simp [hc, Except.map] at h
    | ok p =>
      obtain ⟨db'', r⟩ := p
      simp only [hc, Except.map, Except.ok.injEq] at h
      subst h
      exact (create_cell_frame hc).2.2.1
  | opUpdateCell c i =>
    simp only [runOp] at h
    cases hc : update_cell db u c i with
    | error e => simp [hc, Except.map] at h
    | ok p =>
      obtain ⟨db'', r⟩ := p
      simp only [hc, Except.map, Except.ok.injEq] at h
      subst h
      exact (update_cell_frame hc).2.2.2.2.1
  | opDeleteCell c =>
    simp only [runOp] at h
    cases hc : delete_cell db u c with
    | error e => simp [hc, Except.map] at h
    | ok p =>
      obtain ⟨db'', r⟩ := p
      simp only [hc, Except.map, Except.ok.injEq] at h
      subst h
      exact delete_cell_frame hc
  | opRotateCellKey c dk wn =>
    simp only [runOp] at h
    cases hc : rotate_cell_key masterKey db u c dk wn with
    | error e => simp [hc, Except.map] at h
    | ok p =>
      obtain ⟨db'', r⟩ := p
      simp only [hc, Except.map, Except.ok.injEq] at h
      subst h
      exact (rotate_cell_key_frame hc).2.2.2.2

/-- C4: after every successful state-changing operation composed with the
spec-modelled audit middleware, the audit table is the old table with
exactly one new record appended (so its count grows by exactly one, and no
existing row is updated or deleted). -/
theorem claim_c4_audit_append_only (masterKey : List Nat) (u : User) (db : DB)
    (op : VaultOp) (db' : DB) (hsc : isStateChanging op = true)
    (h : runOpAudited masterKey u db op = .ok db') :
    db'.auditLogs = db.auditLogs ++ [auditRecordFor u op] ∧
    db'.auditLogs.length = db.auditLogs.length + 1 := by
  unfold runOpAudited at h
  cases hr : runOp masterKey u db op with
  | error e => rw [hr] at h; exact Except.noConfusion h
  | ok db0 =>
    rw [hr, hsc] at h
    simp only [if_true, Except.ok.injEq] at h
    subst h
    have hlog := runOp_auditLogs hr
    constructor
    · show db0.auditLogs ++ [auditRecordFor u op] = _
      rw [hlog]
    · show (db0.auditLogs ++ [auditRecordFor u op]).length = _
      simp [hlog]

/-- C4 witness: a concrete successful `delete_cell` through the audited
dispatcher appends exactly one audit record. -/
theorem claim_c4_witness :
    ({ cells := [], secrets := [], secretVersions := [], cellKeys := []
       cellPermissions := []
       auditLogs := [auditRecordFor { id := "u", is_superuser := true }
         (.opDeleteCell "c1")] } : DB).auditLogs
      = ({ cells := [{ id := "c1", name := "n" }], secrets := []
           secretVersions := [], cellKeys := [], cellPermissions := []
           auditLogs := [] } : DB).auditLogs
        ++ [auditRecordFor { id := "u", is_superuser := true }
          (.opDeleteCell "c1")] ∧
    ({ cells := [], secrets := [], secretVersions := [], cellKeys := []
       cellPermissions := []
       auditLogs := [auditRecordFor { id := "u", is_superuser := true }
         (.opDeleteCell "c1")] } : DB).auditLogs.length
      = ({ cells := [{ id := "c1", name := "n" }], secrets := []
           secretVersions := [], cellKeys := [], cellPermissions := []
           auditLogs := [] } : DB).auditLogs.length + 1 :=
  claim_c4_audit_append_only [] { id := "u", is_superuser := true }
    { cells := [{ id := "c1", name := "n" }], secrets := []
      secretVersions := [], cellKeys := [], cellPermissions := []
      auditLogs := [] }
    (.opDeleteCell "c1")
    { cells := [], secrets := [], secretVersions := [], cellKeys := []
      cellPermissions := []
      auditLogs := [auditRecordFor { id := "u", is_superuser := true }
        (.opDeleteCell "c1")] }
    (by decide) (by rfl)

/-! ## Counting lemmas for the active-key invariant -/

theorem find?_none_updateFirst {α : Type} {p : α → Bool} (f : α → α) :
    ∀ l : List α, l.find? p = none → updateFirst p f l = l := by
  intro l
  induction l with
  | nil => intro _; rfl
  | cons a as ih =>
    intro h
    cases hp : p a with
    | true =>
      rw [List.find?_cons_of_pos _ hp] at h
      exact Option.noConfusion h
    | false =>
      rw [List.find?_cons_of_neg _ (by simp [hp])] at h
      simp [updateFirst, hp, ih h]

theorem countP_updateFirst_same {α : Type} {p : α → Bool} {f : α → α}
    (hf : ∀ a, p a = true → p (f a) = false) :
    ∀ l : List α, ∀ k, l.find? p = some k →
      List.countP p (updateFirst p f l) = List.countP p l - 1 := by
  intro l
  induction l with
  | nil => intro k h; exact Option.noConfusion h
  | cons a as ih =>
    intro k h
    cases hp : p a with
    | true =>
      simp only [updateFirst, hp, if_true]
      rw [List.countP_cons, List.countP_cons, hf a hp, hp]
      simp
    | false =>
      rw [List.find?_cons_of_neg _ (by simp [hp])] at h
      simp only [updateFirst, hp]
      rw [if_neg Bool.false_ne_true]
      rw [List.countP_cons, List.countP_cons, hp, ih k h]
      simp

theorem countP_updateFirst_other {α : Type} {p q : α → Bool} {f : α → α}
    (hpf : ∀ a, q a = true → p (f a) = p a) :
    ∀ l : List α, List.countP p (updateFirst q f l) = List.countP p l := by
  intro l
  induction l with
  | nil => rfl
  | cons a as ih =>
    cases hq : q a with
    | true =>
      simp only [updateFirst, hq, if_true]
      rw [List.countP_cons, List.countP_cons, hpf a hq]
    | false =>
      simp only [updateFirst, hq]
      rw [if_neg Bool.false_ne_true]
      rw [List.countP_cons, List.countP_cons, ih]

theorem mem_updateFirst {α : Type} {p : α → Bool} {f : α → α} :
    ∀ {l : List α} {x : α}, x ∈ updateFirst p f l →
      x ∈ l ∨ ∃ a ∈ l, x = f a := by
  intro l
  induction l with
  | nil => intro x hx; cases hx
  | cons a as ih =>
    intro x hx
    by_cases hp : p a
    · simp only [updateFirst, hp, if_true] at hx
      rcases hx with _ | ⟨_, hx⟩
      · exact Or.inr ⟨a, List.mem_cons_self _ _, rfl⟩
      · exact Or.inl (List.mem_cons_of_mem _ hx)
    · simp only [updateFirst, hp, if_false] at hx
      rcases hx with _ | ⟨_, hx⟩
      · exact Or.inl (List.mem_cons_self _ _)
      · rcases ih hx with h | ⟨b, hb, hfb⟩
        · exact Or.inl (List.mem_cons_of_mem _ h)
        · exact Or.inr ⟨b, List.mem_cons_of_mem _ hb, hfb⟩

theorem length_updateFirst {α : Type} (p : α → Bool) (f : α → α) :
    ∀ l : List α, (updateFirst p f l).length = l.length := by
  intro l
  induction l with
  | nil => rfl
  | cons a as ih =>
    by_cases hp : p a <;> simp [updateFirst, hp, ih]

theorem mem_removeFirst_of_not {α : Type} {p : α → Bool} :
    ∀ {l : List α} {x : α}, x ∈ l → p x = false → x ∈ removeFirst p l := by
  intro l
  induction l with
  | nil => intro x hx; cases hx
  | cons a as ih =>
    intro x hx hpx
    by_cases hp : p a
    · simp only [removeFirst, hp, if_true]
      rcases hx with _ | ⟨_, hx⟩
      · rw [hp] at hpx; exact Bool.noConfusion hpx
      · exact hx
    · simp only [removeFirst, hp, if_false]
      rcases hx with _ | ⟨_, hx⟩
      · exact List.mem_cons_self _ _
      · exact List.mem_cons_of_mem _ (ih hx hpx)

/-! ## The active-key invariant -/

/-- Number of `cell_keys` rows for a cell with `active = true`. -/
def activeCount (db : DB) (c : String) : Nat :=
  db.cellKeys.countP (activeKeyMatch c)

/-- At most one active key row per cell, and every key row references an
existing cell.  (Quantified over the key rows so the predicate is decidable
on concrete stores.) -/
def KeyInv (db : DB) : Prop :=
  (∀ k ∈ db.cellKeys, db.cellKeys.countP (activeKeyMatch k.cell_id) ≤ 1) ∧
  ∀ k ∈ db.cellKeys, k.cell_id ∈ db.cells.map (fun c => c.id)

theorem activeKeyMatch_eq_true {c : String} {k : CellKeyRow} :
    activeKeyMatch c k = true ↔ k.cell_id = c ∧ k.active = true := by
  simp [activeKeyMatch]

theorem activeKeyMatch_deactivate (c : String) (k : CellKeyRow) :
    activeKeyMatch c { k with active := false } = false := by
  simp [activeKeyMatch]

theorem activeKeyMatch_other {c c' : String} (hne : c ≠ c') (k : CellKeyRow)
    (hk : k.cell_id = c) : activeKeyMatch c' k = false := by
  simp [activeKeyMatch, hk, hne]

theorem KeyInv_le_one {db : DB} (h : KeyInv db) (c : String) :
    activeCount db c ≤ 1 := by
  unfold activeCount
  by_cases h0 : db.cellKeys.countP (activeKeyMatch c) = 0
  · omega
  · obtain ⟨k, hk, hak⟩ := List.countP_pos_iff.mp (Nat.pos_of_ne_zero h0)
    obtain ⟨hkc, -⟩ := activeKeyMatch_eq_true.mp hak
    have := h.1 k hk
    rw [hkc] at this
    exact this

theorem KeyInv_of_eq {db db' : DB} (hc : db'.cells = db.cells)
    (hk : db'.cellKeys = db.cellKeys) (h : KeyInv db) : KeyInv db' := by
  unfold KeyInv at h ⊢
  rw [hc, hk]
  exact h

/-- A successful `create_cell` implies the new id was not yet present. -/
theorem create_cell_no_dup {masterKey db u cin ncid dk wn db' r}
    (h : create_cell masterKey db u cin ncid dk wn = .ok (db', r)) :
    db.cells.find? (fun c => c.id = ncid) = none := by
  cases hf : db.cells.find? (fun c => c.id = ncid) with
  | none => rfl
  | some c =>
    exfalso
    unfold create_cell at h
    rw [hf] at h
    cases hsu : u.is_superuser <;> rw [hsu] at h <;> exact Except.noConfusion h

/-- A successful rotation implies the cell exists. -/
theorem rotate_cell_key_cell_mem {masterKey db u cid dk wn db' r}
    (h : rotate_cell_key masterKey db u cid dk wn = .ok (db', r)) :
    cid ∈ db.cells.map (fun c => c.id) := by
  cases hf : db.cells.find? (fun c => c.id = cid) with
  | none =>
    exfalso
    unfold rotate_cell_key at h
    rw [hf] at h
    exact Except.noConfusion h
  | some cell =>
    have hmem := List.mem_of_find?_eq_some hf
    have hp := List.find?_some hf
    simp only [decide_eq_true_eq] at hp
    exact List.mem_map.mpr ⟨cell, hmem, hp⟩

/-- The key table after a successful rotation, when an active row existed:
that row is deactivated in place and a fresh active row at the next version
is appended. -/
theorem rotate_cell_key_keys_some {masterKey db u cid dk wn db' r ck}
    (hck : db.cellKeys.find? (activeKeyMatch cid) = some ck)
    (h : rotate_cell_key masterKey db u cid dk wn = .ok (db', r)) :
    db'.cellKeys = updateFirst (activeKeyMatch cid)
        (fun k => { k with active := false }) db.cellKeys
      ++ [{ cell_id := cid
            version := ck.version + 1
            active := true
            encrypted_key := wrapDataKey masterKey cid wn dk }] := by
  unfold rotate_cell_key at h
  rw [hck] at h
  repeat' split at h
  any_goals exact (Except.noConfusion h)
  all_goals
    simp only [Except.ok.injEq, Prod.mk.injEq] at h
    obtain ⟨h1, -⟩ := h
    subst h1
    simp_all

/-- The key table after a successful rotation on a cell with no active row:
a fresh active row at version 1 is appended. -/
theorem rotate_cell_key_keys_none {masterKey db u cid dk wn db' r}
    (hck : db.cellKeys.find? (activeKeyMatch cid) = none)
    (h : rotate_cell_key masterKey db u cid dk wn = .ok (db', r)) :
    db'.cellKeys = db.cellKeys
      ++ [{ cell_id := cid
            version := 1
            active := true
            encrypted_key := wrapDataKey masterKey cid wn dk }] := by
  unfold rotate_cell_key at h
  rw [hck] at h
  repeat' split at h
  any_goals exact (Except.noConfusion h)
  all_goals
    simp only [Except.ok.injEq, Prod.mk.injEq] at h
    obtain ⟨h1, -⟩ := h
    subst h1
    simp_all

theorem countP_filter_le {α : Type} (p q : α → Bool) :
    ∀ l : List α, List.countP p (l.filter q) ≤ List.countP p l := by
  intro l
  induction l with
  | nil => simp
  | cons a as ih =>
    by_cases hq : q a
    · rw [List.filter_cons_of_pos hq, List.countP_cons, List.countP_cons]
      omega
    · rw [List.filter_cons_of_neg hq, List.countP_cons]
      omega

/-- After a successful rotation, every cell still has at most one active key
row, and the rotated cell has exactly one. -/
theorem rotate_cell_key_activeCount {masterKey db u cid dk wn db' r}
    (hinv : KeyInv db)
    (h : rotate_cell_key masterKey db u cid dk wn = .ok (db', r)) :
    (∀ c', activeCount db' c' ≤ 1) ∧ activeCount db' cid = 1 := by
  cases hck : db.cellKeys.find? (activeKeyMatch cid) with
  | some ck =>
    have hkeys := rotate_cell_key_keys_some hck h
    have hmem := List.mem_of_find?_eq_some hck
    have hp := List.find?_some hck
    have hcnt_old : db.cellKeys.countP (activeKeyMatch cid) = 1 := by
      have h1 : 0 < db.cellKeys.countP (activeKeyMatch cid) :=
        List.countP_pos_iff.mpr ⟨ck, hmem, hp⟩
      have h2 := KeyInv_le_one hinv cid
      unfold activeCount at h2
      omega
    have hdeact : (updateFirst (activeKeyMatch cid)
        (fun k => { k with active := false }) db.cellKeys).countP
          (activeKeyMatch cid) = 0 := by
      rw [countP_updateFirst_same (fun a _ => activeKeyMatch_deactivate cid a)
        db.cellKeys ck hck, hcnt_old]
    have hone : activeCount db' cid = 1 := by
      unfold activeCount
      rw [hkeys, List.countP_append, hdeact]
      simp [activeKeyMatch]
    refine ⟨?_, hone⟩
    intro c'
    by_cases hc : c' = cid
    · rw [hc]; omega
    · unfold activeCount
      rw [hkeys, List.countP_append]
      have hother : (updateFirst (activeKeyMatch cid)
          (fun k => { k with active := false }) db.cellKeys).countP
            (activeKeyMatch c') = db.cellKeys.countP (activeKeyMatch c') := by
        apply countP_updateFirst_other
        intro a ha
        obtain ⟨hac, -⟩ := activeKeyMatch_eq_true.mp ha
        rw [activeKeyMatch_deactivate,
          activeKeyMatch_other (fun hh => hc hh.symm) a hac]
      rw [hother]
      have hrow : List.countP (activeKeyMatch c')
          [({ cell_id := cid, version := ck.version + 1, active := true,
              encrypted_key := wrapDataKey masterKey cid wn dk } : CellKeyRow)]
            = 0 := by
        simp only [List.countP_cons, List.countP_nil]
        rw [activeKeyMatch_other (fun hh => hc hh.symm) _ rfl]
        simp
      rw [hrow]
      have := KeyInv_le_one hinv c'
      unfold activeCount at this
      omega
  | none =>
    have hkeys := rotate_cell_key_keys_none hck h
    have hzero : db.cellKeys.countP (activeKeyMatch cid) = 0 := by
      rw [List.countP_eq_zero]
      intro a ha
      exact List.find?_eq_none.mp hck a ha
    have hone : activeCount db' cid = 1 := by
      unfold activeCount
      rw [hkeys, List.countP_append, hzero]
      simp [activeKeyMatch]
    refine ⟨?_, hone⟩
    intro c'
    by_cases hc : c' = cid
    · rw [hc]; omega
    · unfold activeCount
      rw [hkeys, List.countP_append]
      have hrow : List.countP (activeKeyMatch c')
          [({ cell_id := cid, version := 1, active := true,
              encrypted_key := wrapDataKey masterKey cid wn dk } : CellKeyRow)]
            = 0 := by
        simp only [List.countP_cons, List.countP_nil]
        rw [activeKeyMatch_other (fun hh => hc hh.symm) _ rfl]
        simp
      rw [hrow]
      have := KeyInv_le_one hinv c'
      unfold activeCount at this
      omega

theorem rotate_cell_key_KeyInv {masterKey db u cid dk wn db' r}
    (hinv : KeyInv db)
    (h : rotate_cell_key masterKey db u cid dk wn = .ok (db', r)) :
    KeyInv db' := by
  have hcells : db'.cells = db.cells := (rotate_cell_key_frame h).1
  have hcid := rotate_cell_key_cell_mem h
  have hcnt := (rotate_cell_key_activeCount hinv h).1
  constructor
  · intro k _
    have := hcnt k.cell_id
    unfold activeCount at this
    exact this
  · intro k hk
    rw [hcells]
    cases hck : db.cellKeys.find? (activeKeyMatch cid) with
    | some ck =>
      rw [rotate_cell_key_keys_some hck h] at hk
      rcases List.mem_append.mp hk with hk | hk
      · rcases mem_updateFirst hk with hk' | ⟨a, ha, hfa⟩
        · exact hinv.2 k hk'
        · subst hfa
          exact hinv.2 a ha
      · simp only [List.mem_cons, List.not_mem_nil, or_false] at hk
        subst hk
        exact hcid
    | none =>
      rw [rotate_cell_key_keys_none hck h] at hk
      rcases List.mem_append.mp hk with hk | hk
      · exact hinv.2 k hk
      · simp only [List.mem_cons, List.not_mem_nil, or_false] at hk
        subst hk
        exact hcid

theorem create_cell_KeyInv {masterKey db u cin ncid dk wn db' r}
    (hinv : KeyInv db)
    (h : create_cell masterKey db u cin ncid dk wn = .ok (db', r)) :
    KeyInv db' := by
  obtain ⟨-, -, -, hcells, hkeys⟩ := create_cell_frame h
  have hnd := create_cell_no_dup h
  have hnotin : ncid ∉ db.cells.map (fun c => c.id) := by
    intro hmem
    obtain ⟨c, hc, hcid⟩ := List.mem_map.mp hmem
    have := List.find?_eq_none.mp hnd c hc
    simp [hcid] at this
  have hzero : db.cellKeys.countP (activeKeyMatch ncid) = 0 := by
    rw [List.countP_eq_zero]
    intro a ha hpa
    obtain ⟨hac, -⟩ := activeKeyMatch_eq_true.mp hpa
    exact hnotin (hac ▸ hinv.2 a ha)
  constructor
  · intro k hk
    rw [hkeys] at hk
    rw [hkeys, List.countP_append]
    rcases List.mem_append.mp hk with hk | hk
    · by_cases hc : k.cell_id = ncid
      · exact absurd (hc ▸ hinv.2 k hk) hnotin
      · have hrow : List.countP (activeKeyMatch k.cell_id)
            [({ cell_id := ncid, version := 1, active := true,
                encrypted_key := wrapDataKey masterKey ncid wn dk }
              : CellKeyRow)] = 0 := by
          simp only [List.countP_cons, List.countP_nil]
          rw [activeKeyMatch_other (fun hh => hc hh.symm) _ rfl]
          simp
        rw [hrow]
        have := hinv.1 k hk
        omega
    · simp only [List.mem_cons, List.not_mem_nil, or_false] at hk
      subst hk
      rw [hzero]
      simp [activeKeyMatch]
  · intro k hk
    rw [hkeys] at hk
    rw [hcells, List.map_append]
    rcases List.mem_append.mp hk with hk | hk
    · exact List.mem_append_left _ (hinv.2 k hk)
    · simp only [List.mem_cons, List.not_mem_nil, or_false] at hk
      subst hk
      exact List.mem_append_right _ (by simp)

theorem delete_cell_tables {db u cid db' r}
    (h : delete_cell db u cid = .ok (db', r)) :
    db'.cells = removeFirst (fun c => c.id = cid) db.cells ∧
    db'.cellKeys = db.cellKeys.filter (fun k => !(k.cell_id = cid)) := by
  unfold delete_cell at h
  repeat' split at h
  any_goals exact (Except.noConfusion h)
  all_goals
    simp only [Except.ok.injEq, Prod.mk.injEq] at h
    obtain ⟨h1, -⟩ := h
    subst h1
    exact ⟨rfl, rfl⟩

theorem delete_cell_KeyInv {db u cid db' r} (hinv : KeyInv db)
    (h : delete_cell db u cid = .ok (db', r)) : KeyInv db' := by
  obtain ⟨hcells, hkeys⟩ := delete_cell_tables h
  constructor
  · intro k hk
    rw [hkeys] at hk ⊢
    have hmem : k ∈ db.cellKeys := (List.mem_filter.mp hk).1
    calc (db.cellKeys.filter
          (fun k => !(k.cell_id = cid))).countP (activeKeyMatch k.cell_id)
        ≤ db.cellKeys.countP (activeKeyMatch k.cell_id) :=
          countP_filter_le _ _ _
      _ ≤ 1 := hinv.1 k hmem
  · intro k hk
    rw [hkeys] at hk
    rw [hcells]
    obtain ⟨hmem, hne⟩ := List.mem_filter.mp hk
    have hne' : k.cell_id ≠ cid := by simpa using hne
    obtain ⟨c, hc, hcid⟩ := List.mem_map.mp (hinv.2 k hmem)
    refine List.mem_map.mpr ⟨c, ?_, hcid⟩
    apply mem_removeFirst_of_not hc
    simp [hcid, hne']

theorem update_cell_KeyInv {db u cid cin db' r} (hinv : KeyInv db)
    (h : update_cell db u cid cin = .ok (db', r)) : KeyInv db' := by
  obtain ⟨-, -, hkeys, -, -, hids⟩ := update_cell_frame h
  constructor
  · intro k hk
    rw [hkeys] at hk ⊢
    exact hinv.1 k hk
  · intro k hk
    rw [hkeys] at hk
    rw [hids]
    exact hinv.2 k hk

/-- Every modelled operation preserves the active-key invariant. -/
theorem runOp_KeyInv {masterKey : List Nat} {u : User} {db : DB}
    {op : VaultOp} {db' : DB} (hinv : KeyInv db)
    (h : runOp masterKey u db op = .ok db') : KeyInv db' := by
  cases op with
  | opCreateSecret c i n id =>
    simp only [runOp] at h
    cases hc : create_secret masterKey db u c i n id with
    | error e => simp [hc, Except.map] at h
    | ok p =>
      obtain ⟨db'', r⟩ := p
      simp only [hc, Except.map, Except.ok.injEq] at h
      subst h
      exact KeyInv_of_eq (create_secret_frame hc).1 (create_secret_frame hc).2.1 hinv
  | opGetSecret c k v =>
    simp only [runOp] at h
    cases hc : get_secret masterKey db u c k v with
    | error e => simp [hc, Except.map] at h
    | ok p =>
      obtain ⟨db'', r⟩ := p
      simp only [hc, Except.map, Except.ok.injEq] at h
      subst h
      rw [get_secret_frame hc]
      exact hinv
  | opUpdateSecret c k i n =>
    simp only [runOp] at h
    cases hc : update_secret masterKey db u c k i n with
    | error e => simp [hc, Except.map] at h
    | ok p =>
      obtain ⟨db'', r⟩ := p
      simp only [hc, Except.map, Except.ok.injEq] at h
      subst h
      exact KeyInv_of_eq (update_secret_frame hc).1 (update_secret_frame hc).2.1 hinv
  | opDeleteSecret c k =>
    simp only [runOp] at h
    cases hc : delete_secret db u c k with
    | error e => simp [hc, Except.map] at h
    | ok p =>
      obtain ⟨db'', r⟩ := p
      simp only [hc, Except.map, Except.ok.injEq] at h
      subst h
      exact KeyInv_of_eq (delete_secret_frame hc).1 (delete_secret_frame hc).2.1 hinv
  | opCreateCell i nc dk wn =>
    simp only [runOp] at h
    cases hc : create_cell masterKey db u i nc dk wn with
    | error e => simp [hc, Except.map] at h
    | ok p =>
      obtain ⟨db'', r⟩ := p
      simp only [hc, Except.map, Except.ok.injEq] at h
      subst h
      exact create_cell_KeyInv hinv hc
  | opUpdateCell c i =>
    simp only [runOp] at h
    cases hc : update_cell db u c i with
    | error e => simp [hc, Except.map] at h
    | ok p =>
      obtain ⟨db'', r⟩ := p
      simp only [hc, Except.map, Except.ok.injEq] at h
      subst h
      exact update_cell_KeyInv hinv hc
  | opDeleteCell c =>
    simp only [runOp] at h
    cases hc : delete_cell db u c with
    | error e => simp [hc, Except.map] at h
    | ok p =>
      obtain ⟨db'', r⟩ := p
      simp only [hc, Except.map, Except.ok.injEq] at h
      subst h
      exact delete_cell_KeyInv hinv hc
  | opRotateCellKey c dk wn =>
    simp only [runOp] at h
    cases hc : rotate_cell_key masterKey db u c dk wn with
    | error e => simp [hc, Except.map] at h
    | ok p =>
      obtain ⟨db'', r⟩ := p
      simp only [hc, Except.map, Except.ok.injEq] at h
      subst h
      exact rotate_cell_key_KeyInv hinv hc

/-- C9: every modelled operation preserves "at most one `cell_keys` row per
cell has `active = true`"; after every successful rotation the rotated cell
has exactly one active row, and when an active row existed before, the
newly inserted active row carries version previous + 1 (while the previous
row is deactivated in the same state change). -/
theorem claim_c9_single_active_key (masterKey : List Nat) (u : User) (db : DB)
    (op : VaultOp) (db' : DB) (hinv : KeyInv db)
    (h : runOp masterKey u db op = .ok db') :
    (∀ c : String, activeCount db' c ≤ 1) ∧
    ∀ (c : String) (dk wn : List Nat), op = .opRotateCellKey c dk wn →
      activeCount db' c = 1 ∧
      ∀ ck, db.cellKeys.find? (activeKeyMatch c) = some ck →
        ({ cell_id := c
           version := ck.version + 1
           active := true
           encrypted_key := wrapDataKey masterKey c wn dk } : CellKeyRow)
          ∈ db'.cellKeys := by
  have hinv' := runOp_KeyInv hinv h
  refine ⟨fun c => KeyInv_le_one hinv' c, ?_⟩
  intro c dk wn hop
  subst hop
  simp only [runOp] at h
  cases hc : rotate_cell_key masterKey db u c dk wn with
  | error e => simp [hc, Except.map] at h
  | ok p =>
    obtain ⟨db'', r⟩ := p
    simp only [hc, Except.map, Except.ok.injEq] at h
    subst h
    refine ⟨(rotate_cell_key_activeCount hinv hc).2, ?_⟩
    intro ck hck
    rw [rotate_cell_key_keys_some hck hc]
    exact List.mem_append_right _ (by simp)

/-- Concrete store for the C9 witness: one cell with one active key row. -/
def c9DB : DB :=
  { cells := [{ id := "c1", name := "n" }]
    secrets := []
    secretVersions := []
    cellKeys := [{ cell_id := "c1", version := 1, active := true, encrypted_key := [0] }]
    cellPermissions := []
    auditLogs := [] }

/-- The store after the C9 witness rotation: the old row deactivated and an
active version-2 row appended. -/
def c9DBAfter : DB :=
  { cells := [{ id := "c1", name := "n" }]
    secrets := []
    secretVersions := []
    cellKeys :=
      [{ cell_id := "c1", version := 1, active := false, encrypted_key := [0] },
       { cell_id := "c1", version := 2, active := true
         encrypted_key := wrapDataKey [] "c1" (List.replicate 12 0) (List.replicate 32 1) }]
    cellPermissions := []
    auditLogs := [] }

/-- C9 witness: a concrete rotation on a store with one active key row. -/
theorem claim_c9_witness :
    (∀ c : String, activeCount c9DBAfter c ≤ 1) ∧
    ∀ (c : String) (dk wn : List Nat),
      VaultOp.opRotateCellKey "c1" (List.replicate 32 1) (List.replicate 12 0)
        = .opRotateCellKey c dk wn →
      activeCount c9DBAfter c = 1 ∧
      ∀ ck, c9DB.cellKeys.find? (activeKeyMatch c) = some ck →
        ({ cell_id := c
           version := ck.version + 1
           active := true
           encrypted_key := wrapDataKey [] c wn dk } : CellKeyRow)
          ∈ c9DBAfter.cellKeys :=
  claim_c9_single_active_key [] { id := "u", is_superuser := true } c9DB
    (.opRotateCellKey "c1" (List.replicate 32 1) (List.replicate 12 0))
    c9DBAfter (by unfold KeyInv; decide) (by rfl)

/-! ## Update frame lemmas for C10 -/

theorem find?_updateFirst {α : Type} {p : α → Bool} {f : α → α}
    (hf : ∀ a, p (f a) = p a) :
    ∀ l : List α, ∀ s, l.find? p = some s →
      (updateFirst p f l).find? p = some (f s) := by
  intro l
  induction l with
  | nil => intro s h; exact Option.noConfusion h
  | cons a as ih =>
    intro s h
    cases hp : p a with
    | true =>
      rw [List.find?_cons_of_pos _ hp] at h
      obtain rfl : a = s := Option.some.inj h
      simp only [updateFirst, hp, if_true]
      rw [List.find?_cons_of_pos _ (by rw [hf a]; exact hp)]
    | false =>
      rw [List.find?_cons_of_neg _ (by simp [hp])] at h
      simp only [updateFirst, hp]
      rw [if_neg Bool.false_ne_true]
      rw [List.find?_cons_of_neg _ (by simp [hp])]
      exact ih s h

theorem getElem?_updateFirst_of_neg {α : Type} {p : α → Bool} {f : α → α} :
    ∀ (l : List α) (i : Nat) (x : α), l[i]? = some x → p x = false →
      (updateFirst p f l)[i]? = some x := by
  intro l
  induction l with
  | nil => intro i x h; simp at h
  | cons a as ih =>
    intro i x h hneg
    cases i with
    | zero =>
      rw [List.getElem?_cons_zero] at h
      obtain rfl : a = x := Option.some.inj h
      simp only [updateFirst, hneg]
      rw [if_neg Bool.false_ne_true, List.getElem?_cons_zero]
    | succ j =>
      rw [List.getElem?_cons_succ] at h
      cases hp : p a with
      | true =>
        simp only [updateFirst, hp, if_true]
        rw [List.getElem?_cons_succ]
        exact h
      | false =>
        simp only [updateFirst, hp]
        rw [if_neg Bool.false_ne_true, List.getElem?_cons_succ]
        exact ih j x h hneg

/-- The secrets table after a successful `update_secret`: exactly the first
matching row is rewritten (new ciphertext, version + 1, metadata only when
the request metadata is truthy). -/
theorem update_secret_secrets {masterKey db u cid skey sin nonce db' r dk}
    (hdk : activeDataKeyUnchecked masterKey db cid = .ok dk)
    (h : update_secret masterKey db u cid skey sin nonce = .ok (db', r)) :
    db'.secrets = updateFirst (secretMatch cid skey)
      (fun s => { s with
          value := CellEncryption.encrypt ⟨cid, dk⟩ nonce sin.value
          version := s.version + 1
          metadata := if metaTruthy sin.metadata then sin.metadata
            else s.metadata }) db.secrets := by
  unfold update_secret at h
  rw [hdk] at h
  repeat' split at h
  any_goals exact (Except.noConfusion h)
  all_goals
    simp only [Except.ok.injEq, Prod.mk.injEq] at h
    obtain ⟨h1, -⟩ := h
    subst h1
    simp_all

/-- C10: a successful update whose request metadata is falsy (absent, or the
empty object) leaves the stored metadata of the matched secret unchanged,
replaces its stored value with the new ciphertext (encrypted under the data
key unwrapped from the currently active cell key), increments its version by
exactly one, and changes no other secret row (same table length, all
non-matching rows untouched). -/
theorem claim_c10_update_metadata_frame (masterKey : List Nat) (u : User)
    (db : DB) (cid skey : String) (sin : SecretUpdate) (nonce : List Nat)
    (s : SecretRow) (dk : List Nat)
    (hm : metaTruthy sin.metadata = false)
    (hfind : db.secrets.find? (secretMatch cid skey) = some s)
    (hdk : activeDataKeyUnchecked masterKey db cid = .ok dk)
    (hok : exceptOk (update_secret masterKey db u cid skey sin nonce)
      = true) :
    (okState db (update_secret masterKey db u cid skey sin nonce)).secrets.find?
        (secretMatch cid skey)
      = some { s with
          value := CellEncryption.encrypt ⟨cid, dk⟩ nonce sin.value
          version := s.version + 1 } ∧
    (okState db (update_secret masterKey db u cid skey sin
      nonce)).secrets.length = db.secrets.length ∧
    ∀ (i : Nat) (x : SecretRow), db.secrets[i]? = some x →
      secretMatch cid skey x = false →
      (okState db (update_secret masterKey db u cid skey sin
        nonce)).secrets[i]? = some x := by
  cases hu : update_secret masterKey db u cid skey sin nonce with
  | error e => rw [hu] at hok; exact Bool.noConfusion hok
  | ok p =>
    obtain ⟨db', r⟩ := p
    have hsecrets := update_secret_secrets hdk hu
    simp only [hm, Bool.false_eq_true, if_false] at hsecrets
    have hpres : ∀ a : SecretRow, secretMatch cid skey
        ({ a with
            value := CellEncryption.encrypt ⟨cid, dk⟩ nonce sin.value
            version := a.version + 1 })
          = secretMatch cid skey a := by
      intro a
      simp [secretMatch]
    refine ⟨?_, ?_, ?_⟩
    · show db'.secrets.find? _ = _
      rw [hsecrets]
      exact find?_updateFirst hpres db.secrets s hfind
    · show db'.secrets.length = _
      rw [hsecrets]
      exact length_updateFirst _ _ _
    · intro i x hx hneg
      show db'.secrets[i]? = some x
      rw [hsecrets]
      exact getElem?_updateFirst_of_neg db.secrets i x hx hneg

/-! ## Concrete stores and scenarios -/

/-- Master key used by the concrete scenarios. -/
def demoMasterKey : List Nat := List.replicate 32 7

/-- Data key used by the concrete scenarios. -/
def demoDataKey : List Nat := List.replicate 32 1

/-- The empty store. -/
def emptyDB : DB :=
  { cells := [], secrets := [], secretVersions := [], cellKeys := []
    cellPermissions := [], auditLogs := [] }

/-- A superuser subject. -/
def demoAdmin : User := { id := "u", is_superuser := true }

/-- The C1 scenario with no rotation: create the cell and a secret, then
read version 1. -/
def c1ScenarioNoRotation : Except VErr (DB × SecretRow) :=
  match create_cell demoMasterKey emptyDB demoAdmin { name := "cell one" }
      "c1" demoDataKey (List.replicate 12 0) with
  | .error e => .error e
  | .ok (db1, _) =>
    match create_secret demoMasterKey db1 demoAdmin "c1"
        { key := "k", value := [104, 105], metadata := none }
        (List.replicate 12 2) 1 with
    | .error e => .error e
    | .ok (db2, _) => get_secret demoMasterKey db2 demoAdmin "c1" "k" (some 1)

/-- The C1 scenario: create the cell and a secret (encrypted under cell-key
version 1), rotate the cell key, then read version 1. -/
def c1Scenario : Except VErr (DB × SecretRow) :=
  match create_cell demoMasterKey emptyDB demoAdmin { name := "cell one" }
      "c1" demoDataKey (List.replicate 12 0) with
  | .error e => .error e
  | .ok (db1, _) =>
    match create_secret demoMasterKey db1 demoAdmin "c1"
        { key := "k", value := [104, 105], metadata := none }
        (List.replicate 12 2) 1 with
    | .error e => .error e
    | .ok (db2, _) =>
      match rotate_cell_key demoMasterKey db2 demoAdmin "c1"
          (List.replicate 32 3) (List.replicate 12 4) with
      | .error e => .error e
      | .ok (db3, _) => get_secret demoMasterKey db3 demoAdmin "c1" "k" (some 1)

/-- The plaintext a read returned, or `[]` on failure. -/
def respValue : Except VErr (DB × SecretRow) → List Nat
  | .ok p => p.2.value
  | .error _ => []

set_option maxRecDepth 100000 in
/-- C1: reading version 1 returns its plaintext while the version-1 cell key
is still active, but after one key rotation the same read fails the AEAD tag
check (`InvalidTag`, the spec's `CryptoError::Decrypt`): `get_secret`
decrypts every version with the *currently active* cell key instead of the
key that was active when the version was written. -/
theorem claim_c1_read_uses_current_key :
    respValue c1ScenarioNoRotation = [104, 105] ∧
    c1Scenario = .error .invalidTag := by
  constructor
  · decide
  · decide

/-- C2: the key-wrapping step of the literal `create_cell` and
`rotate_cell_key` calls `.hex()` on the `int` that
`KeyRotation.rotate_key()` returns (the new version number, not the fresh
key), raising `AttributeError`: no cell-key row wrapping the fresh 32-byte
data key is ever stored. -/
theorem claim_c2_wrap_step_attribute_error (masterKey : List Nat) (db : DB)
    (u : User) (hsu : u.is_superuser = true) :
    (∀ (cin : CellCreate) (ncid : String) (freshKey wrapNonce : List Nat),
      db.cells.find? (fun c => c.id = ncid) = none →
      create_cell_literal masterKey db u cin ncid freshKey wrapNonce
        = .error .attributeError) ∧
    ∀ (cid : String) (freshKey wrapNonce : List Nat) (cl : CellRow),
      db.cells.find? (fun c => c.id = cid) = some cl →
      rotate_cell_key_literal masterKey db u cid freshKey wrapNonce
        = .error .attributeError := by
  constructor
  · intro cin ncid freshKey wrapNonce hnone
    unfold create_cell_literal
    rw [hsu, hnone]
    rfl
  · intro cid freshKey wrapNonce cl hsome
    unfold rotate_cell_key_literal
    rw [hsome, hsu]
    rfl

/-- Store for the C2 witness: one existing cell. -/
def c2DB : DB :=
  { cells := [{ id := "c1", name := "n" }]
    secrets := []
    secretVersions := []
    cellKeys := []
    cellPermissions := []
    auditLogs := [] }

/-- C2 witness: the wrap step crashes on a concrete store. -/
theorem claim_c2_witness :
    (∀ (cin : CellCreate) (ncid : String) (freshKey wrapNonce : List Nat),
      c2DB.cells.find? (fun c => c.id = ncid) = none →
      create_cell_literal [] c2DB demoAdmin cin ncid freshKey wrapNonce
        = .error .attributeError) ∧
    ∀ (cid : String) (freshKey wrapNonce : List Nat) (cl : CellRow),
      c2DB.cells.find? (fun c => c.id = cid) = some cl →
      rotate_cell_key_literal [] c2DB demoAdmin cid freshKey wrapNonce
        = .error .attributeError :=
  claim_c2_wrap_step_attribute_error [] c2DB demoAdmin (by rfl)

/-- Store for C3: a cell with a working active key, and one permission row
for the non-superuser subject "u" that expired at instant 0. -/
def c3DB : DB :=
  { cells := [{ id := "c1", name := "n" }]
    secrets := []
    secretVersions := []
    cellKeys :=
      [{ cell_id := "c1"
         version := 1
         active := true
         encrypted_key := wrapDataKey demoMasterKey "c1" (List.replicate 12 0)
           demoDataKey }]
    cellPermissions :=
      [{ cell_id := "c1"
         user_id := "u"
         permission := "write"
         expires_at := some 0 }]
    auditLogs := [] }

set_option maxRecDepth 100000 in
/-- C3: the only permission row for (c1, u) carries
`expires_at = some 0` — expired at every later instant — yet the
non-superuser create succeeds: no permission query in the source constrains
`expires_at`, so an expired row grants access instead of the required
`Forbidden`. -/
theorem claim_c3_expired_row_grants_access :
    c3DB.cellPermissions
      = [{ cell_id := "c1"
           user_id := "u"
           permission := "write"
           expires_at := some 0 }] ∧
    exceptOk (create_secret demoMasterKey c3DB { id := "u", is_superuser := false }
      "c1" { key := "k", value := [104], metadata := none }
      (List.replicate 12 2) 1) = true :=
  ⟨rfl, by decide⟩

/-- Store for C5: a cell with one secret and zero cell-key rows. -/
def c5DB : DB :=
  { cells := [{ id := "c1", name := "n" }]
    secrets :=
      [{ id := 1
         cell_id := "c1"
         key := "k"
         value := [0]
         version := 1
         metadata := none }]
    secretVersions := [{ secret_id := 1, value := [0], version := 1 }]
    cellKeys := []
    cellPermissions := []
    auditLogs := [] }

set_option maxRecDepth 100000 in
/-- C5: on a cell with zero active cell keys, only `create_secret` reports
the missing key (the 500 "No active encryption key found" outcome);
`get_secret` and `update_secret` skip the `None` check and crash with
`AttributeError` (`'NoneType' object has no attribute 'encrypted_key'`),
surfaced as a generic internal error — not the required `NoActiveKey`. -/
theorem claim_c5_missing_active_key_outcomes :
    get_secret demoMasterKey c5DB demoAdmin "c1" "k" none
      = .error .attributeError ∧
    update_secret demoMasterKey c5DB demoAdmin "c1" "k"
      { value := [1], metadata := none } (List.replicate 12 0)
      = .error .attributeError ∧
    create_secret demoMasterKey c5DB demoAdmin "c1"
      { key := "k2", value := [1], metadata := none } (List.replicate 12 0) 2
      = .error .noActiveKey :=
  ⟨by decide, by decide, by decide⟩

/-- The secret row of the C10 witness store. -/
def c10Secret : SecretRow :=
  { id := 1
    cell_id := "c1"
    key := "k"
    value := [0]
    version := 1
    metadata := some [("a", "b")] }

/-- Store for the C10 witness: one cell, one secret carrying metadata, one
active wrapped key. -/
def c10DB : DB :=
  { cells := [{ id := "c1", name := "n" }]
    secrets := [c10Secret]
    secretVersions := [{ secret_id := 1, value := [0], version := 1 }]
    cellKeys :=
      [{ cell_id := "c1"
         version := 1
         active := true
         encrypted_key := wrapDataKey demoMasterKey "c1" (List.replicate 12 0)
           demoDataKey }]
    cellPermissions := []
    auditLogs := [] }

/-- The C10 witness request: a new value and no metadata. -/
def c10Update : SecretUpdate := { value := [9], metadata := none }

set_option maxRecDepth 1000000 in
/-- C10 witness: a concrete metadata-less update leaves the stored metadata,
bumps the version to 2 and rewrites only the matched row. -/
theorem claim_c10_witness :
    (okState c10DB (update_secret demoMasterKey c10DB demoAdmin "c1" "k"
        c10Update (List.replicate 12 2))).secrets.find? (secretMatch "c1" "k")
      = some { c10Secret with
          value := CellEncryption.encrypt ⟨"c1", demoDataKey⟩
            (List.replicate 12 2) c10Update.value
          version := c10Secret.version + 1 } ∧
    (okState c10DB (update_secret demoMasterKey c10DB demoAdmin "c1" "k"
      c10Update (List.replicate 12 2))).secrets.length
        = c10DB.secrets.length ∧
    ∀ (i : Nat) (x : SecretRow), c10DB.secrets[i]? = some x →
      secretMatch "c1" "k" x = false →
      (okState c10DB (update_secret demoMasterKey c10DB demoAdmin "c1" "k"
        c10Update (List.replicate 12 2))).secrets[i]? = some x :=
  claim_c10_update_metadata_frame demoMasterKey demoAdmin c10DB "c1" "k"
    c10Update (List.replicate 12 2) c10Secret demoDataKey (by decide)
    (by decide) (by decide) (by decide)
